import Mathlib

/-!
Verification of the sudoku solver core (`src/solve_mask.c`) against its
natural-language specification.

The C source is shallowly embedded: the 9-bit candidate masks of cells are
`Nat` values, the grid is a structure holding the 81 cell masks together with
the `changed` flags of the 27 regions and 54 intersections, and the imperative
loops of the rule engines become structural recursions over the index lists
they iterate.  Statistic counters (`counters` in the C) are carried explicitly.
Recursive procedures whose termination the C source does not make structural
(`grid_solveByElimination`, the fixed-point skim loop, the backtracking DFS)
take an explicit fuel argument; exhausted fuel picks the failure branch of the
corresponding C loop.  The process-terminating `exit(-1)` branch of the
hypothesis loop is modelled as `Option.none`.

Message emission (`sudoku_on_message`) only produces display strings and never
feeds back into control flow or state; it is not modelled.  Grid events
(`ON_INIT`, `ON_CHANGE`, `ON_SOLVED`) and the hypothesis announcements are
modelled as an explicit trace of emission points, in emission order.
-/

set_option maxRecDepth 10000

namespace SudokuSolver

/-! ## Bit utilities (`NB_BITS`, `SUBSETS`, mask operations) -/

/-- Width-bounded population count; `w = 16` covers every value of the C
`unsigned short int` operands. -/
def NB_BITS_go : Nat → Nat → Nat
  | _, 0 => 0
  | 0, _ => 0
  | w + 1, n => n % 2 + NB_BITS_go w (n / 2)

/-- `NB_BITS[i]`: population count of the word `i`
(the C precomputes the table by `NB_BITS[i] = (i & 1) + NB_BITS[i >> 1]`;
the table is indexed by 9-bit masks, and every mask handled by the solver
fits in the 16 bits of `unsigned short int`). -/
def NB_BITS (n : Nat) : Nat := NB_BITS_go 16 n

/-- The slice `SUBSETS[SUBSET_INDEX[k-1] .. SUBSET_INDEX[k])` of the C subset
table: all 9-bit masks of population count `k`, in increasing numeric order
(the table is filled by scanning `j = 0 .. (1<<9)-1` for each cardinality). -/
def subsetsOfSize (k : Nat) : List Nat :=
  (List.range 512).filter fun j => NB_BITS j = k

/-- `CLEAR v m` mirrors `v &= ~m` on a C `unsigned short int`
(complement taken on 16 bits). -/
def CLEAR (v m : Nat) : Nat := v &&& (m ^^^ 65535)

/-- `Submask a b`: every bit of `a` is a bit of `b`. -/
def Submask (a b : Nat) : Prop := a &&& b = a

instance (a b : Nat) : Decidable (Submask a b) := by
  unfold Submask; infer_instance

theorem Nat.land_self_eq (a : Nat) : a &&& a = a :=
  Nat.eq_of_testBit_eq fun i => by rw [Nat.testBit_land, Bool.and_self]

theorem Submask.refl_mask (a : Nat) : Submask a a := Nat.land_self_eq a

theorem Submask.trans_mask {a b c : Nat} (h1 : Submask a b) (h2 : Submask b c) :
    Submask a c := by
  unfold Submask at *
  calc a &&& c = (a &&& b) &&& c := by rw [h1]
    _ = a &&& (b &&& c) := Nat.land_assoc a b c
    _ = a &&& b := by rw [h2]
    _ = a := h1

theorem Submask.clear (v m : Nat) : Submask (CLEAR v m) v := by
  unfold Submask CLEAR
  calc (v &&& (m ^^^ 65535)) &&& v
      = v &&& ((m ^^^ 65535) &&& v) := Nat.land_assoc ..
    _ = v &&& (v &&& (m ^^^ 65535)) := by rw [Nat.land_comm (m ^^^ 65535) v]
    _ = (v &&& v) &&& (m ^^^ 65535) := (Nat.land_assoc ..).symm
    _ = v &&& (m ^^^ 65535) := by rw [Nat.land_self_eq]

theorem Submask.land_left (v m : Nat) : Submask (v &&& m) v := by
  unfold Submask
  calc (v &&& m) &&& v
      = v &&& (m &&& v) := Nat.land_assoc ..
    _ = v &&& (v &&& m) := by rw [Nat.land_comm m v]
    _ = (v &&& v) &&& m := (Nat.land_assoc ..).symm
    _ = v &&& m := by rw [Nat.land_self_eq]

/-! ## Grid model

The C `grid` owns 81 `cell`s (candidate masks), 27 `region`s and 54
`intersection`s.  Regions and intersections hold pointers into the cell
array plus a `changed` flag; here the cells are a flat list indexed by
`9*row + col` and membership is expressed through index functions mirroring
`grid_init`.  Cell names and `given` flags only feed message formatting and
are not modelled. -/

/-- Grid state: the 81 candidate masks (row-major), the `changed` flags of
the 27 regions and of the 54 intersections. -/
structure GState where
  cells : List Nat
  regCh : List Bool
  intCh : List Bool
deriving DecidableEq, Repr

/-- Mask of the cell at flat index `i` (`g->cell[i/9][i%9].value`). -/
def gcell (g : GState) (i : Nat) : Nat := g.cells.getD i 0

/-- Write the mask of the cell at flat index `i`. -/
def setCell (g : GState) (i : Nat) (v : Nat) : GState :=
  { g with cells := g.cells.set i v }

/-- Flat index of cell `c` of region `ir` (from `grid_init`): regions
`0..8` are the rows, `9..17` the columns, `18..26` the squares. -/
def regionCell (ir c : Nat) : Nat :=
  match ir / 9 with
  | 0 => 9 * (ir % 9) + c
  | 1 => 9 * c + ir % 9
  | _ => 9 * (c / 3 + 3 * ((ir % 9) / 3)) + (c % 3 + 3 * (ir % 3))

/-- Flat index of `r1_cell[k]` of intersection `ii` (from `grid_init`).
For `ii < 27` (`direction == ROW`) these are the 6 cells of the line
(a column) outside the box; for `ii >= 27` (`direction == COLUMN`) the 6
cells of the row outside the box. -/
def interR1 (ii k : Nat) : Nat :=
  if ii < 27 then
    let r := 3 * (ii / 9) + k % 3
    let c := ii % 9
    if k < 3 then 9 * ((r + 3) % 9) + c else 9 * ((r + 6) % 9) + c
  else
    let inter := ii - 27
    let r := inter / 3
    let c := (3 * inter + k % 3) % 9
    if k < 3 then 9 * r + (c + 3) % 9 else 9 * r + (c + 6) % 9

/-- Flat index of `r2_cell[k]` of intersection `ii` (from `grid_init`): the
6 cells of the box outside the overlap. -/
def interR2 (ii k : Nat) : Nat :=
  if ii < 27 then
    let r := 3 * (ii / 9) + k % 3
    let c := ii % 9
    if k < 3 then 9 * r + (3 * (c / 3) + (c + 1) % 3)
    else 9 * r + (3 * (c / 3) + (c + 2) % 3)
  else
    let inter := ii - 27
    let r := inter / 3
    let c := (3 * inter + k % 3) % 9
    if k < 3 then 9 * (3 * (r / 3) + (r + 1) % 3) + c
    else 9 * (3 * (r / 3) + (r + 2) % 3) + c

/-- `grid_cell_changed`: raise the `changed` flag of every region and every
intersection containing the cell at flat index `ci`; report whether the cell
is now solved (`NB_BITS == 1`; the C then emits the cell-filled message). -/
def grid_cell_changed (g : GState) (ci : Nat) : GState × Bool :=
  let regCh := (List.range 27).map fun ir =>
    g.regCh.getD ir false || (List.range 9).any fun c => regionCell ir c = ci
  let intCh := (List.range 54).map fun ii =>
    g.intCh.getD ii false ||
      (List.range 6).any fun k => interR1 ii k = ci || interR2 ii k = ci
  ({ g with regCh := regCh, intCh := intCh }, NB_BITS (gcell g ci) = 1)

/-- `grid_countEmptyCells`: cells whose mask is not a singleton. -/
def grid_countEmptyCells (g : GState) : Nat :=
  ((List.range 81).filter fun i => NB_BITS (gcell g i) ≠ 1).length

/-- Payload of a grid event (`sudoku_grid_event_args`): the `9×9×9` candidate
cube and the number of solved cells. -/
structure EvtArgs where
  grid : List (List (List Int))
  nbCells : Int
deriving DecidableEq, Repr

/-- `get_event_args`: cube entry `[r][c][v]` is `v+1` when candidate `v+1`
is present in the cell's mask, else `0`. -/
def get_event_args (g : GState) : EvtArgs :=
  { grid := (List.range 9).map fun r => (List.range 9).map fun c =>
      (List.range 9).map fun v =>
        if (gcell g (9 * r + c)) &&& (1 <<< v) ≠ 0 then (v : Int) + 1 else 0,
    nbCells := (81 : Int) - grid_countEmptyCells g }

/-- Trace entry: one emission point of a grid event, or one hypothesis
announcement (the `??? Hypothesis ???` message of the elimination driver,
recording the pivot's flat index and the assigned singleton mask). -/
inductive Ev where
  | init (args : EvtArgs)
  | change (args : EvtArgs)
  | solved (args : EvtArgs)
  | hypothesis (ci : Nat) (mask : Nat)
deriving DecidableEq, Repr

/-- Statistic counters (`counters`); the `theSolution` text log is
display-only and not modelled. -/
structure Counters where
  nbSolutions : Int
  nbRules : Int
  backtrackingTries : Int
  backtrackingLevel : Int
  backtrackingSteps : Int
  rC : List Int
  rV : List Int
  rR : List Int
  rI : Int
deriving DecidableEq, Repr

/-- The zero-initialised counters of `sudoku_solve`. -/
def stats0 : Counters :=
  { nbSolutions := 0, nbRules := 0, backtrackingTries := 0,
    backtrackingLevel := 0, backtrackingSteps := 0,
    rC := List.replicate 9 0, rV := List.replicate 9 0,
    rR := List.replicate 9 0, rI := 0 }

/-! ## Region rule engine (`region_skim`)

For one region, subsets of the 9 positions (resp. of the 9 values) are
scanned by increasing cardinality; the candidate-exclusion and
value-exclusion rules are applied to each subset.  A firing at subset size
`> 1` returns immediately; a firing at size `1` sets `stop = 1` so that the
scan of the size-1 subsets finishes before returning. -/

/-- Result of a skim function: C return code, grid, counters. -/
structure SkimOut where
  ret : Int
  g : GState
  st : Counters
deriving DecidableEq, Repr

/-- Outcome of scanning a list of subsets: either the enclosing function
returned (`ret`), or the scan finished and the outer depth loop continues
with the current `stop` value. -/
inductive ScanOut where
  | ret (k : Int) (g : GState) (st : Counters)
  | cont (stop : Nat) (g : GState) (st : Counters)
deriving DecidableEq, Repr

/-- Count `nbRules++; rC[skimLevel-1]++` of a candidate-exclusion firing. -/
def bumpC (st : Counters) (lvl : Nat) : Counters :=
  { st with nbRules := st.nbRules + 1,
            rC := st.rC.set (lvl - 1) (st.rC.getD (lvl - 1) 0 + 1) }

/-- Count `nbRules++; rV[skimLevel-1]++` of a value-exclusion firing. -/
def bumpV (st : Counters) (lvl : Nat) : Counters :=
  { st with nbRules := st.nbRules + 1,
            rV := st.rV.set (lvl - 1) (st.rV.getD (lvl - 1) 0 + 1) }

/-- Count `nbRules++; rR[skimLevel-1]++` of a line-exclusion firing. -/
def bumpR (st : Counters) (lvl : Nat) : Counters :=
  { st with nbRules := st.nbRules + 1,
            rR := st.rR.set (lvl - 1) (st.rR.getD (lvl - 1) 0 + 1) }

/-- Union of the masks of the cells of region `ir` selected by `bits`
(the `values |= reg->cell[cell]->value` accumulation loop). -/
def regionValuesOf (g : GState) (ir bits : Nat) : Nat :=
  (List.range 9).foldl
    (fun a c => if (bits >>> c) &&& 1 = 1 then a ||| gcell g (regionCell ir c) else a) 0

/-- Position mask of the cells of region `ir` whose mask meets `bits`
(the backwards `cells <<= 1; if (bits & ...) cells |= 1` loop). -/
def regionCellsOf (g : GState) (ir bits : Nat) : Nat :=
  (List.range 9).foldl
    (fun a c => if bits &&& gcell g (regionCell ir c) ≠ 0 then a ||| (1 <<< c) else a) 0

/-- Candidate-exclusion clearing loop: remove `values` from the cells of
region `ir` *outside* `bits`; `.error g` mirrors the `return (-1)` taken
when a mask reaches 0.  `lvl` is the running `skimLevel`. -/
def candClearGo (ir bits values : Nat) :
    List Nat → GState → Nat → Except GState (GState × Nat)
  | [], g, lvl => .ok (g, lvl)
  | c :: cs, g, lvl =>
    if (bits >>> c) &&& 1 = 0 then
      let oldv := gcell g (regionCell ir c)
      let newv := CLEAR oldv values
      if newv ≠ oldv then
        let g1 := setCell g (regionCell ir c) newv
        let g2 := (grid_cell_changed g1 (regionCell ir c)).1
        if newv = 0 then .error g2
        else candClearGo ir bits values cs g2 (NB_BITS bits)
      else candClearGo ir bits values cs g lvl
    else candClearGo ir bits values cs g lvl

/-- Value-exclusion clearing loop: restrict the cells of region `ir`
selected by `cellsMask` to the values of `bits`
(`value &= ~othervalues` with `othervalues = ~bits`). -/
def valClearGo (ir cellsMask othervalues : Nat) :
    List Nat → GState → Nat → Nat → Except GState (GState × Nat)
  | [], g, lvl, _ => .ok (g, lvl)
  | c :: cs, g, lvl, nbbits =>
    if (cellsMask >>> c) &&& 1 = 1 then
      let oldv := gcell g (regionCell ir c)
      let newv := CLEAR oldv othervalues
      if newv ≠ oldv then
        let g1 := setCell g (regionCell ir c) newv
        let g2 := (grid_cell_changed g1 (regionCell ir c)).1
        if newv = 0 then .error g2
        else valClearGo ir cellsMask othervalues cs g2 nbbits nbbits
      else valClearGo ir cellsMask othervalues cs g lvl nbbits
    else valClearGo ir cellsMask othervalues cs g lvl nbbits

/-- Scan of one batch of subsets for region `ir`: apply the candidate- and
value-exclusion rules to each subset in order, with the C's early-return
(`skimLevel > 1`) and `stop` handling. -/
def regionScan (ir : Nat) : List Nat → Nat → GState → Counters → ScanOut
  | [], stop, g, st => .cont stop g st
  | bits :: rest, stop, g, st =>
    -- candidate exclusion rule
    let values := regionValuesOf g ir bits
    if NB_BITS values < NB_BITS bits then .ret (-1) g st
    else
      let step1 : Except GState (GState × Nat) :=
        if NB_BITS values = NB_BITS bits then
          candClearGo ir bits values (List.range 9) g 0
        else .ok (g, 0)
      match step1 with
      | .error g1 => .ret (-1) g1 st
      | .ok (g1, lvl1) =>
        let st1 := if lvl1 ≠ 0 then bumpC st lvl1 else st
        if 1 < lvl1 then .ret (lvl1 : Int) g1 st1
        else
          let stop1 := if lvl1 ≠ 0 then lvl1 else stop
          -- value exclusion rule
          let cells := regionCellsOf g1 ir bits
          if NB_BITS cells < NB_BITS bits then .ret (-1) g1 st1
          else
            let step2 : Except GState (GState × Nat) :=
              if NB_BITS bits = NB_BITS cells then
                valClearGo ir cells (bits ^^^ 65535) (List.range 9) g1 0 (NB_BITS bits)
              else .ok (g1, 0)
            match step2 with
            | .error g2 => .ret (-1) g2 st1
            | .ok (g2, lvl2) =>
              let st2 := if lvl2 ≠ 0 then bumpV st1 lvl2 else st1
              if 1 < lvl2 then .ret (lvl2 : Int) g2 st2
              else
                let stop2 := if lvl2 ≠ 0 then lvl2 else stop1
                regionScan ir rest stop2 g2 st2

/-- Depth loop of `region_skim`: scan cardinalities `1..9` while `stop` is
still 0; return `stop` when the loop ends. -/
def regionSkimGo (ir : Nat) : List Nat → Nat → GState → Counters → SkimOut
  | [], stop, g, st => ⟨(stop : Int), g, st⟩
  | d :: ds, stop, g, st =>
    if stop ≠ 0 then ⟨(stop : Int), g, st⟩
    else
      match regionScan ir (subsetsOfSize d) stop g st with
      | .ret k g1 st1 => ⟨k, g1, st1⟩
      | .cont stop1 g1 st1 => regionSkimGo ir ds stop1 g1 st1

/-- `region_skim` on region `ir`. -/
def region_skim (ir : Nat) (g : GState) (st : Counters) : SkimOut :=
  regionSkimGo ir [1, 2, 3, 4, 5, 6, 7, 8, 9] 0 g st

/-! ## Line rule engine (`value_skim`)

For one digit `value`, subsets of row indices (resp. column indices) are
scanned by increasing cardinality, with the same early-return discipline as
`region_skim`. -/

/-- Columns containing `value` within the rows selected by `bits`. -/
def rowColumnsOf (g : GState) (value bits : Nat) : Nat :=
  (List.range 9).foldl
    (fun a row =>
      if (bits >>> row) &&& 1 = 1 then
        (List.range 9).foldl
          (fun b col =>
            if gcell g (9 * row + col) &&& (1 <<< (value - 1)) ≠ 0 then
              b ||| (1 <<< col)
            else b) a
      else a) 0

/-- Rows containing `value` within the columns selected by `bits`. -/
def colRowsOf (g : GState) (value bits : Nat) : Nat :=
  (List.range 9).foldl
    (fun a col =>
      if (bits >>> col) &&& 1 = 1 then
        (List.range 9).foldl
          (fun b row =>
            if gcell g (9 * row + col) &&& (1 <<< (value - 1)) ≠ 0 then
              b ||| (1 <<< row)
            else b) a
      else a) 0

/-- Inner clearing loop of the row-exclusion rule: remove `value` from the
cells of one row lying in the columns of `columns`. -/
def rowClearInner (value row columns nbbits : Nat) :
    List Nat → GState → Nat → Except GState (GState × Nat)
  | [], g, lvl => .ok (g, lvl)
  | col :: cs, g, lvl =>
    if (columns >>> col) &&& 1 = 1 then
      let oldv := gcell g (9 * row + col)
      let newv := CLEAR oldv (1 <<< (value - 1))
      if newv ≠ oldv then
        let g2 := (grid_cell_changed (setCell g (9 * row + col) newv) (9 * row + col)).1
        if newv = 0 then .error g2
        else rowClearInner value row columns nbbits cs g2 nbbits
      else rowClearInner value row columns nbbits cs g lvl
    else rowClearInner value row columns nbbits cs g lvl

/-- Outer clearing loop of the row-exclusion rule: all rows outside `bits`. -/
def rowClearOuter (value bits columns nbbits : Nat) :
    List Nat → GState → Nat → Except GState (GState × Nat)
  | [], g, lvl => .ok (g, lvl)
  | row :: rs, g, lvl =>
    if (bits >>> row) &&& 1 = 0 then
      match rowClearInner value row columns nbbits (List.range 9) g lvl with
      | .error g1 => .error g1
      | .ok (g1, lvl1) => rowClearOuter value bits columns nbbits rs g1 lvl1
    else rowClearOuter value bits columns nbbits rs g lvl

/-- Inner clearing loop of the column-exclusion rule: remove `value` from
the cells of one column lying in the rows of `rows`. -/
def colClearInner (value col rows nbbits : Nat) :
    List Nat → GState → Nat → Except GState (GState × Nat)
  | [], g, lvl => .ok (g, lvl)
  | row :: rs, g, lvl =>
    if (rows >>> row) &&& 1 = 1 then
      let oldv := gcell g (9 * row + col)
      let newv := CLEAR oldv (1 <<< (value - 1))
      if newv ≠ oldv then
        let g2 := (grid_cell_changed (setCell g (9 * row + col) newv) (9 * row + col)).1
        if newv = 0 then .error g2
        else colClearInner value col rows nbbits rs g2 nbbits
      else colClearInner value col rows nbbits rs g lvl
    else colClearInner value col rows nbbits rs g lvl

/-- Outer clearing loop of the column-exclusion rule: all columns outside
`bits`. -/
def colClearOuter (value bits rows nbbits : Nat) :
    List Nat → GState → Nat → Except GState (GState × Nat)
  | [], g, lvl => .ok (g, lvl)
  | col :: cs, g, lvl =>
    if (bits >>> col) &&& 1 = 0 then
      match colClearInner value col rows nbbits (List.range 9) g lvl with
      | .error g1 => .error g1
      | .ok (g1, lvl1) => colClearOuter value bits rows nbbits cs g1 lvl1
    else colClearOuter value bits rows nbbits cs g lvl

/-- Scan of one batch of row/column subsets for digit `value`: the
row-exclusion rule then the column-exclusion rule on each subset, with the
early-return/`stop` discipline of `value_skim`. -/
def valueScan (value : Nat) : List Nat → Nat → GState → Counters → ScanOut
  | [], stop, g, st => .cont stop g st
  | bits :: rest, stop, g, st =>
    -- row exclusion rule
    let columns := rowColumnsOf g value bits
    if NB_BITS columns < NB_BITS bits then .ret (-1) g st
    else
      let step1 : Except GState (GState × Nat) :=
        if NB_BITS columns = NB_BITS bits then
          rowClearOuter value bits columns (NB_BITS bits) (List.range 9) g 0
        else .ok (g, 0)
      match step1 with
      | .error g1 => .ret (-1) g1 st
      | .ok (g1, lvl1) =>
        let st1 := if lvl1 ≠ 0 then bumpR st lvl1 else st
        if 1 < lvl1 then .ret (lvl1 : Int) g1 st1
        else
          let stop1 := if lvl1 ≠ 0 then lvl1 else stop
          -- column exclusion rule
          let rows := colRowsOf g1 value bits
          if NB_BITS rows < NB_BITS bits then .ret (-1) g1 st1
          else
            let step2 : Except GState (GState × Nat) :=
              if NB_BITS rows = NB_BITS bits then
                colClearOuter value bits rows (NB_BITS bits) (List.range 9) g1 0
              else .ok (g1, 0)
            match step2 with
            | .error g2 => .ret (-1) g2 st1
            | .ok (g2, lvl2) =>
              let st2 := if lvl2 ≠ 0 then bumpR st1 lvl2 else st1
              if 1 < lvl2 then .ret (lvl2 : Int) g2 st2
              else
                let stop2 := if lvl2 ≠ 0 then lvl2 else stop1
                valueScan value rest stop2 g2 st2

/-- Depth loop of `value_skim`. -/
def valueSkimGo (value : Nat) : List Nat → Nat → GState → Counters → SkimOut
  | [], stop, g, st => ⟨(stop : Int), g, st⟩
  | d :: ds, stop, g, st =>
    if stop ≠ 0 then ⟨(stop : Int), g, st⟩
    else
      match valueScan value (subsetsOfSize d) stop g st with
      | .ret k g1 st1 => ⟨k, g1, st1⟩
      | .cont stop1 g1 st1 => valueSkimGo value ds stop1 g1 st1

/-- `value_skim` for digit `value`. -/
def value_skim (g : GState) (value : Nat) (st : Counters) : SkimOut :=
  valueSkimGo value [1, 2, 3, 4, 5, 6, 7, 8, 9] 0 g st

/-! ## Intersection rule engine (`intersection_skim`) and grid-level skims -/

/-- Clearing loop of `intersection_skim`: `value &= ~intersection` on each
listed cell, marking changed cells; no contradiction check. -/
def interClearGo (inter : Nat) : List Nat → GState → GState
  | [], g => g
  | ci :: cs, g =>
    let oldv := gcell g ci
    let newv := CLEAR oldv inter
    let g1 := setCell g ci newv
    let g2 := if newv ≠ oldv then (grid_cell_changed g1 ci).1 else g1
    interClearGo inter cs g2

/-- `intersection_skim` on intersection `ii`: clear the symmetric difference
of the two outside-cell unions from all 12 outside cells; the return value
is its population count. -/
def intersection_skim (ii : Nat) (g : GState) (st : Counters) : SkimOut :=
  let v0 := (List.range 6).foldl (fun a k => a ||| gcell g (interR1 ii k)) 0
  let v1 := (List.range 6).foldl (fun a k => a ||| gcell g (interR2 ii k)) 0
  let inter := v0 ^^^ v1
  if inter ≠ 0 then
    let st1 := { st with nbRules := st.nbRules + (NB_BITS inter : Int),
                         rI := st.rI + (NB_BITS inter : Int) }
    let g1 := interClearGo inter ((List.range 6).map (interR1 ii)) g
    let g2 := interClearGo inter ((List.range 6).map (interR2 ii)) g1
    ⟨(NB_BITS inter : Int), g2, st1⟩
  else ⟨(NB_BITS inter : Int), g, st⟩

/-- Result of a grid-level skim pass: C return code, grid, counters and the
trace of `ON_CHANGE` emissions. -/
structure GSkimOut where
  ret : Int
  g : GState
  st : Counters
  tr : List Ev
deriving DecidableEq, Repr

/-- Loop body of `grid_skimRegions` over the region indices still to
visit: skip unchanged regions, clear the flag, skim, emit `ON_CHANGE` on
progress, abort on an invalid region. -/
def gridSkimRegionsGo : List Nat → Int → GState → Counters → List Ev → GSkimOut
  | [], sk, g, st, tr => ⟨sk, g, st, tr⟩
  | ir :: irs, sk, g, st, tr =>
    if g.regCh.getD ir false = false then gridSkimRegionsGo irs sk g st tr
    else
      let g0 : GState := { g with regCh := g.regCh.set ir false }
      let o := region_skim ir g0 st
      if 0 < o.ret then
        gridSkimRegionsGo irs (max sk o.ret) o.g o.st
          (tr ++ [Ev.change (get_event_args o.g)])
      else if o.ret < 0 then ⟨o.ret, o.g, o.st, tr⟩
      else gridSkimRegionsGo irs sk o.g o.st tr

/-- `grid_skimRegions`. -/
def grid_skimRegions (g : GState) (st : Counters) : GSkimOut :=
  gridSkimRegionsGo (List.range 27) 0 g st []

/-- Loop body of `grid_skimValues` over digits `1..9`. -/
def gridSkimValuesGo : List Nat → Int → GState → Counters → List Ev → GSkimOut
  | [], sk, g, st, tr => ⟨sk, g, st, tr⟩
  | v :: vs, sk, g, st, tr =>
    let o := value_skim g v st
    if 0 < o.ret then
      gridSkimValuesGo vs (max sk o.ret) o.g o.st
        (tr ++ [Ev.change (get_event_args o.g)])
    else if o.ret < 0 then ⟨o.ret, o.g, o.st, tr⟩
    else gridSkimValuesGo vs sk o.g o.st tr

/-- `grid_skimValues`. -/
def grid_skimValues (g : GState) (st : Counters) : GSkimOut :=
  gridSkimValuesGo [1, 2, 3, 4, 5, 6, 7, 8, 9] 0 g st []

/-- Loop body of `grid_skimIntersections`: skip unchanged intersections,
clear the flag, skim, accumulate the (never negative) return values. -/
def gridSkimIntersectionsGo : List Nat → Int → GState → Counters → List Ev → GSkimOut
  | [], sk, g, st, tr => ⟨sk, g, st, tr⟩
  | ii :: iis, sk, g, st, tr =>
    if g.intCh.getD ii false = false then gridSkimIntersectionsGo iis sk g st tr
    else
      let g0 : GState := { g with intCh := g.intCh.set ii false }
      let o := intersection_skim ii g0 st
      if 0 < o.ret then
        gridSkimIntersectionsGo iis (sk + o.ret) o.g o.st
          (tr ++ [Ev.change (get_event_args o.g)])
      else gridSkimIntersectionsGo iis sk o.g o.st tr

/-- `grid_skimIntersections`. -/
def grid_skimIntersections (g : GState) (st : Counters) : GSkimOut :=
  gridSkimIntersectionsGo (List.range 54) 0 g st []

/-! ## Elimination driver (`grid_solveByElimination`)

The fixed-point loop and the recursive hypothesis step.  Both loops of the C
terminate because every productive iteration clears at least one candidate
bit; the embedding makes this explicit through a fuel argument whose
exhaustion selects the failure code `-1`.  The `exit(-1)` branch taken when
a recursive call returns 0 is modelled as `none` (process abort). -/

/-- Find-mode of the public entry. -/
inductive Find where
  | FIRST
  | ALL
deriving DecidableEq, Repr

/-- Result of the elimination driver: C return code, the (in-place) grid,
counters and event trace. -/
structure ElimOut where
  ret : Int
  g : GState
  st : Counters
  tr : List Ev
deriving DecidableEq, Repr

/-- The `while (skim > 0)` fixed-point loop of `grid_solveByElimination`:
regions, then digits, then intersections, restarting after any progress. -/
def skimLoop : Nat → GState → Counters → Int × GState × Counters × List Ev
  | 0, g, st => (0, g, st, [])
  | fuel + 1, g, st =>
    let a := grid_skimRegions g st
    if a.ret < 0 then (-1, a.g, a.st, a.tr)
    else if 0 < a.ret then
      let r := skimLoop fuel a.g a.st
      (r.1, r.2.1, r.2.2.1, a.tr ++ r.2.2.2)
    else
      let b := grid_skimValues a.g a.st
      if b.ret < 0 then (-1, b.g, b.st, a.tr ++ b.tr)
      else if 0 < b.ret then
        let r := skimLoop fuel b.g b.st
        (r.1, r.2.1, r.2.2.1, a.tr ++ b.tr ++ r.2.2.2)
      else
        let c := grid_skimIntersections b.g b.st
        if c.ret < 0 then (-1, c.g, c.st, a.tr ++ b.tr ++ c.tr)
        else if 0 < c.ret then
          let r := skimLoop fuel c.g c.st
          (r.1, r.2.1, r.2.2.1, a.tr ++ b.tr ++ c.tr ++ r.2.2.2)
        else (0, c.g, c.st, a.tr ++ b.tr ++ c.tr)

/-- Pivot search: the first unsolved cell of minimal candidate count `≥ 2`,
with an early break as soon as a 2-candidate cell is found. -/
def findPivotGo (g : GState) : List Nat → Option Nat → Nat → Option Nat
  | [], p, _ => p
  | i :: is, p, m =>
    let j := NB_BITS (gcell g i)
    if 2 ≤ j ∧ j < m then
      if j = 2 then some i else findPivotGo g is (some i) j
    else findPivotGo g is p m

/-- `ipivot` of the hypothesis step (`-1` becomes `none`). -/
def findPivot (g : GState) : Option Nat :=
  findPivotGo g (List.range 81) none 10

/-- Width-bounded bit-extraction loop; `w = 16` covers the 16-bit
`unsigned short int` holding the pivot's mask. -/
def hypBitsGo : Nat → Nat → Nat → List Nat
  | _, 0, _ => []
  | 0, _, _ => []
  | w + 1, bits, value =>
    (if bits % 2 = 1 then [value] else []) ++ hypBitsGo w (bits / 2) (value * 2)

/-- Candidate masks of the hypothesis loop
(`for (bits = pivot; bits != 0; bits >>= 1, value <<= 1)`), in
least-significant-bit order. -/
def hypBits (bits value : Nat) : List Nat := hypBitsGo 16 bits value

/-- The hypothesis loop over the candidate masks of the pivot cell.
`solve` is the recursive call with one unit of fuel consumed; `none`
propagates the `exit(-1)` taken when a recursive call returns 0. -/
def hypLoop (solve : GState → Find → Counters → Option ElimOut)
    (g0 : GState) (find : Find) (ip : Nat) :
    List Nat → Int → Counters → List Ev → Option (Int × Counters × List Ev)
  | [], retCode, st, tr => some (retCode, st, tr)
  | v :: vs, retCode, st, tr =>
    let clone := setCell g0 ip v
    let clone1 := (grid_cell_changed clone ip).1
    let st1 : Counters :=
      { st with backtrackingTries := st.backtrackingTries + 1,
                backtrackingLevel := st.backtrackingLevel + 1 }
    match solve clone1 find st1 with
    | none => none
    | some out =>
      let nbSteps : Int :=
        (grid_countEmptyCells g0 : Int) - (grid_countEmptyCells out.g : Int)
      let st2 := if out.st.backtrackingSteps < nbSteps then
          { out.st with backtrackingSteps := nbSteps } else out.st
      let tr1 := tr ++ Ev.hypothesis ip v :: out.tr
      if 0 < out.ret then
        let st3 := { st2 with backtrackingLevel := out.ret }
        if find = Find.FIRST then some (out.ret, st3, tr1)
        else hypLoop solve g0 find ip vs out.ret st3 tr1
      else if out.ret = 0 then none
      else
        let st3 := { st2 with backtrackingLevel := st2.backtrackingLevel - 1 }
        hypLoop solve g0 find ip vs retCode st3 tr1

/-- `grid_solveByElimination`: drive the rules to a fixed point; on a
contradiction return `-1`; on an incomplete grid run the hypothesis loop on
a deep copy per candidate; on a complete grid count the solution, emit
`ON_SOLVED` and return `backtrackingLevel`. -/
def grid_solveByElimination : Nat → GState → Find → Counters → Option ElimOut
  | 0, g, _, st => some ⟨-1, g, st, []⟩
  | fuel + 1, g, find, st =>
    let l := skimLoop (fuel + 1) g st
    let ret0 := l.1
    let g0 := l.2.1
    let st0 := l.2.2.1
    let tr0 := l.2.2.2
    if ret0 < 0 then some ⟨-1, g0, st0, tr0⟩
    else
      match findPivot g0 with
      | some ip =>
        let tr1 := tr0 ++ [Ev.change (get_event_args g0)]
        match hypLoop (grid_solveByElimination fuel) g0 find ip
            (hypBits (gcell g0 ip) 1) (-1) st0 tr1 with
        | none => none
        | some (rc, stf, trf) => some ⟨rc, g0, stf, trf⟩
      | none =>
        let st1 := { st0 with nbSolutions := st0.nbSolutions + 1 }
        some ⟨st0.backtrackingLevel, g0, st1,
          tr0 ++ [Ev.solved (get_event_args g0)]⟩

/-! ## Integer-array grids and the backtracking method

`sudoku_solve` receives `int g[9][9]` from the caller and the backtracking
solver clones it with `memcpy` before every speculative placement.  To state
frame properties about the caller's array, arrays live in a `Store` (an
allocation arena); the caller's array is an index into it and each `memcpy`
clone allocates a fresh slot.  All other accesses of the C go through pure
reads. -/

/-- A C `int[9][9]`. -/
abbrev I9 := List (List Int)

/-- Arena of allocated `int[9][9]` arrays. -/
abbrev Store := List I9

/-- Read `g[r][c]`. -/
def iget (g : I9) (r c : Nat) : Int := (g.getD r []).getD c 0

/-- Write `g[r][c] = v`. -/
def iset (g : I9) (r c : Nat) (v : Int) : I9 :=
  g.set r ((g.getD r []).set c v)

/-- `int9x9_print`: event payload with `grid[r][c][0] = g[r][c]` and the
count of filled cells. -/
def int9x9_print (g : I9) : EvtArgs :=
  { grid := (List.range 9).map fun r => (List.range 9).map fun c =>
      iget g r c :: List.replicate 8 0,
    nbCells := (((List.range 81).filter fun i => iget g (i / 9) (i % 9) ≠ 0).length : Int) }

/-- `int9x9_check`: the first validity screen of the backtracking method,
with the mixed `&&`-condition of the `SQUARE` case exactly as in the
source. -/
def int9x9_check (g : I9) : Bool :=
  !((List.range 9).any fun row => (List.range 9).any fun col =>
      iget g row col != 0 &&
        ((List.range 9).any fun cell =>
          (cell != row && iget g cell col == iget g row col) ||
          (cell != col && iget g row cell == iget g row col) ||
          (3 * (row / 3) + cell / 3 != row &&
           3 * (col / 3) + cell % 3 != col &&
           iget g (3 * (row / 3) + cell / 3) (3 * (col / 3) + cell % 3)
             == iget g row col)))

/-- Result of the backtracking solver: C return code, arena, counters,
trace of `ON_SOLVED` emissions. -/
structure BtOut where
  ret : Int
  sto : Store
  st : Counters
  tr : List Ev
deriving DecidableEq, Repr

/-- Value loop of `int9x9_solveByBacktracking` for the first empty cell
`(l, c)` of the array at arena index `gi`: values `1..9`, the duplicate
screen, then `memcpy` to a fresh clone, place the value and recurse. -/
def btLoop (solve : Store → Nat → Counters → BtOut) (gi l c : Nat)
    (find : Find) :
    List Int → Int → Store → Counters → List Ev → BtOut
  | [], retCode, sto, st, tr => ⟨retCode, sto, st, tr⟩
  | v :: vs, retCode, sto, st, tr =>
    let g := sto.getD gi []
    let skip := (List.range 9).any fun cell =>
      iget g l cell == v || iget g cell c == v ||
        iget g (3 * (l / 3) + cell / 3) (3 * (c / 3) + cell % 3) == v
    if skip then btLoop solve gi l c find vs retCode sto st tr
    else
      let clone := iset g l c v
      let sto1 := sto ++ [clone]
      let st1 := { st with backtrackingTries := st.backtrackingTries + 1 }
      let o := solve sto1 sto.length st1
      if 0 < o.ret then
        if find = Find.FIRST then ⟨1, o.sto, o.st, tr ++ o.tr⟩
        else btLoop solve gi l c find vs 1 o.sto o.st (tr ++ o.tr)
      else btLoop solve gi l c find vs retCode o.sto o.st (tr ++ o.tr)

/-- `int9x9_solveByBacktracking` on the array at arena index `gi`. -/
def int9x9_solveByBacktracking :
    Nat → Store → Nat → Find → Counters → BtOut
  | 0, sto, _, _, st => ⟨0, sto, st, []⟩
  | fuel + 1, sto, gi, find, st =>
    let g := sto.getD gi []
    match (List.range 81).find? fun i => iget g (i / 9) (i % 9) == 0 with
    | some ii =>
      btLoop (fun s j stc => int9x9_solveByBacktracking fuel s j find stc)
        gi (ii / 9) (ii % 9) find [1, 2, 3, 4, 5, 6, 7, 8, 9] 0 sto st []
    | none =>
      let st1 := { st with nbSolutions := st.nbSolutions + 1 }
      ⟨1, sto, st1, [Ev.solved (int9x9_print g)]⟩

/-! ## Public entry (`sudoku_solve`) -/

/-- The `method` enumeration of `solve.h`, in declaration order
(`NONE = 0`). -/
inductive Method where
  | NONE
  | EXACT_COVER
  | ELIMINATION
  | BACKTRACKING
deriving DecidableEq, Repr

/-- Candidate mask of a cell initialised from the input value
(`grid_initCell`): full mask for `0`, singleton for `1..9`.  The C guard
skips out-of-range values (leaving the uninitialised stack value), but
`sudoku_solve` has already rejected such grids; `0` stands in here. -/
def grid_initCell_mask (v : Int) : Nat :=
  if v = 0 then 511
  else if 1 ≤ v ∧ v ≤ 9 then 1 <<< (v.toNat - 1)
  else 0

/-- `grid_init_from_int9x9`: build the cell masks and raise every
region/intersection `changed` flag. -/
def grid_init_from_int9x9 (g : I9) : GState :=
  { cells := (List.range 81).map fun i => grid_initCell_mask (iget g (i / 9) (i % 9)),
    regCh := List.replicate 27 true,
    intCh := List.replicate 54 true }

/-- The out-of-range scan at the top of `sudoku_solve`. -/
def int9x9_out_of_range (g : I9) : Bool :=
  (List.range 81).any fun i =>
    decide (iget g (i / 9) (i % 9) < 0) || decide (9 < iget g (i / 9) (i % 9))

/-- Modelled from the spec: `dlx_subset_require_in_solution` belongs to the
external Dancing Links library (not under `src/`); per the spec, pre-covering
the subset of a given cell fails exactly when the pre-cover of an earlier
given already covered one of its columns, i.e. when two givens carry the
same value in the same row, column or box. -/
def precoverFails (g : I9) : Bool :=
  (List.range 81).any fun i =>
    (List.range i).any fun j =>
      iget g (i / 9) (i % 9) != 0 &&
      iget g (j / 9) (j % 9) == iget g (i / 9) (i % 9) &&
        (i / 9 == j / 9 || i % 9 == j % 9 ||
          (i / 9 / 3 == j / 9 / 3 && i % 9 / 3 == j % 9 / 3))

/-- Modelled from the spec: `dlx_exact_cover_search` (external Dancing Links
library, not under `src/`) enumerates the solutions of the grid — by (P3)
the same set of solutions as the backtracking solver — and the registered
displayer decodes each one and fires `ON_SOLVED`; in `FIRST` mode the search
stops after one solution. -/
def exactCoverSearchEvents (fuel : Nat) (g : I9) (find : Find) : List Ev :=
  (int9x9_solveByBacktracking fuel [g] 0 find stats0).tr

/-- Result of `sudoku_solve`: the returned `method`, the final arena, the
trace of grid events. -/
structure SolveOut where
  m : Method
  sto : Store
  tr : List Ev
deriving DecidableEq, Repr

/-- `sudoku_solve` on the array at arena index `gi`; `none` models
`exit(-1)`. -/
def sudoku_solve (fuel : Nat) (sto : Store) (gi : Nat) (meth : Method)
    (find : Find) : Option SolveOut :=
  let g := sto.getD gi []
  if int9x9_out_of_range g then some ⟨Method.NONE, sto, []⟩
  else
    match meth with
    | Method.ELIMINATION =>
      let gs := grid_init_from_int9x9 g
      match grid_solveByElimination fuel gs find stats0 with
      | none => none
      | some out =>
        some ⟨if 0 < out.st.backtrackingTries then Method.BACKTRACKING
              else Method.ELIMINATION,
              sto, Ev.init (get_event_args gs) :: out.tr⟩
    | Method.BACKTRACKING =>
      if int9x9_check g = false then
        some ⟨Method.NONE, sto, [Ev.init (int9x9_print g)]⟩
      else
        let o := int9x9_solveByBacktracking fuel sto gi find stats0
        if o.ret = 0 then some ⟨Method.NONE, o.sto, Ev.init (int9x9_print g) :: o.tr⟩
        else some ⟨Method.BACKTRACKING, o.sto, Ev.init (int9x9_print g) :: o.tr⟩
    | Method.EXACT_COVER =>
      if precoverFails g then some ⟨Method.NONE, sto, [Ev.init (int9x9_print g)]⟩
      else some ⟨Method.NONE, sto,
        Ev.init (int9x9_print g) :: exactCoverSearchEvents fuel g find⟩
    | Method.NONE => some ⟨Method.NONE, sto, []⟩

/-! ## Observer bus (`sudoku_grid_event_handler_add` and dispatch)

Handlers are function pointers in the C; they are modelled by numeric
identities, `0` standing for the null pointer.  The bus keeps one singly
linked list per event kind (`ON_INIT = 1`, `ON_CHANGE = 2`,
`ON_SOLVED = 4`). -/

/-- The three handler lists of the bus. -/
structure Bus where
  onInit : List Nat
  onChange : List Nat
  onSolved : List Nat
deriving DecidableEq, Repr

/-- The walk-to-tail append of `sudoku_grid_event_handler_add`, including
its redundant duplicate re-check over consecutive node pairs; `none`
mirrors the early `return` that aborts the whole call. -/
def tailInsert : List Nat → Nat → Option (List Nat)
  | [], h => some [h]
  | [x], h => some [x, h]
  | x :: y :: xs, h =>
    if x = h ∨ y = h then none
    else (tailInsert (y :: xs) h).map (x :: ·)

/-- One kind of `sudoku_grid_event_handler_add`: scan the list for `h`
(zeroing `t[i]` on a duplicate), then append when `type` selects the kind
(empty list: install as head). -/
def addKind (l : List Nat) (tbit typ h : Nat) : Option (List Nat) :=
  let t := if h ∈ l then 0 else tbit
  if typ &&& t ≠ 0 then
    match l with
    | [] => some [h]
    | _ => tailInsert l h
  else some l

/-- `sudoku_grid_event_handler_add`: process the three kinds in order; an
early `return` keeps the already-made updates and skips the rest. -/
def sudoku_grid_event_handler_add (typ h : Nat) (b : Bus) : Bus :=
  match addKind b.onInit 1 typ h with
  | none => b
  | some l0 =>
    match addKind b.onChange 2 typ h with
    | none => { b with onInit := l0 }
    | some l1 =>
      match addKind b.onSolved 4 typ h with
      | none => { b with onInit := l0, onChange := l1 }
      | some l2 => ⟨l0, l1, l2⟩

/-- Dispatch (`sudoku_on_init`/`sudoku_on_change`/`sudoku_on_solved`): the
sequence of handler calls, each receiving the grid identifier and the event
payload; null handlers are skipped. -/
def dispatchCalls (l : List Nat) (id : Nat) (args : EvtArgs) :
    List (Nat × Nat × EvtArgs) :=
  l.filterMap fun h => if h ≠ 0 then some (h, id, args) else none

/-- Handler list of one event kind (`0`: `ON_INIT`, `1`: `ON_CHANGE`,
`2`: `ON_SOLVED`). -/
def busList (b : Bus) : Nat → List Nat
  | 0 => b.onInit
  | 1 => b.onChange
  | _ => b.onSolved

/-- Bitmask value of one event kind. -/
def kindBit : Nat → Nat
  | 0 => 1
  | 1 => 2
  | _ => 4

/-! ## Specification-worded form of `region_skim`

A second definition of the region scan following the words of the claim:
scan the subsets by increasing size; report invalid (`-1`) on a Hall
violation or a mask reaching 0; on a clearing at size `k > 1` return `k`
immediately; on a clearing at size `1` remember it, let the scan of the
size-1 subsets run to completion, and return `1`; return `0` when nothing
cleared.  The rule applications themselves are shared with the source
translation — the claim is about the return/driving protocol. -/

/-- Outcome of the spec-worded scan of one batch of subsets. -/
inductive SpecScanOut where
  | invalid (g : GState) (st : Counters)
  | fired (k : Nat) (g : GState) (st : Counters)
  | done (fired1 : Bool) (g : GState) (st : Counters)
deriving DecidableEq, Repr

/-- Spec-worded scan: `f` records that a size-1 clearing has occurred. -/
def regionScanSpec (ir : Nat) : List Nat → Bool → GState → Counters → SpecScanOut
  | [], f, g, st => .done f g st
  | bits :: rest, f, g, st =>
    let values := regionValuesOf g ir bits
    if NB_BITS values < NB_BITS bits then .invalid g st
    else
      let step1 : Except GState (GState × Nat) :=
        if NB_BITS values = NB_BITS bits then
          candClearGo ir bits values (List.range 9) g 0
        else .ok (g, 0)
      match step1 with
      | .error g1 => .invalid g1 st
      | .ok (g1, lvl1) =>
        let st1 := if lvl1 ≠ 0 then bumpC st lvl1 else st
        if 1 < lvl1 then .fired lvl1 g1 st1
        else
          let f1 := f || decide (lvl1 ≠ 0)
          let cells := regionCellsOf g1 ir bits
          if NB_BITS cells < NB_BITS bits then .invalid g1 st1
          else
            let step2 : Except GState (GState × Nat) :=
              if NB_BITS bits = NB_BITS cells then
                valClearGo ir cells (bits ^^^ 65535) (List.range 9) g1 0 (NB_BITS bits)
              else .ok (g1, 0)
            match step2 with
            | .error g2 => .invalid g2 st1
            | .ok (g2, lvl2) =>
              let st2 := if lvl2 ≠ 0 then bumpV st1 lvl2 else st1
              if 1 < lvl2 then .fired lvl2 g2 st2
              else
                let f2 := f1 || decide (lvl2 ≠ 0)
                regionScanSpec ir rest f2 g2 st2

/-- Spec-worded depth loop: on a completed size-`d` batch with a recorded
size-1 firing return `1`, otherwise move to the next size. -/
def regionSkimSpecGo (ir : Nat) : List Nat → GState → Counters → SkimOut
  | [], g, st => ⟨0, g, st⟩
  | d :: ds, g, st =>
    match regionScanSpec ir (subsetsOfSize d) false g st with
    | .invalid g1 st1 => ⟨-1, g1, st1⟩
    | .fired k g1 st1 => ⟨(k : Int), g1, st1⟩
    | .done true g1 st1 => ⟨1, g1, st1⟩
    | .done false g1 st1 => regionSkimSpecGo ir ds g1 st1

/-- The return protocol of `region_skim` as the specification words it. -/
def region_skim_spec (ir : Nat) (g : GState) (st : Counters) : SkimOut :=
  regionSkimSpecGo ir [1, 2, 3, 4, 5, 6, 7, 8, 9] g st

/-- Correspondence between the spec-worded scan outcome and the source's
scan outcome (`stop = 1` records a size-1 firing). -/
def mapSpecScan : SpecScanOut → ScanOut
  | .invalid g st => .ret (-1) g st
  | .fired k g st => .ret (k : Int) g st
  | .done f g st => .cont (if f then 1 else 0) g st

/-- Grid state carried by a clearing-loop outcome (used to state facts
covering both the early `-1` exit and the normal exit). -/
def exceptState : Except GState (GState × Nat) → GState
  | .error g => g
  | .ok (g, _) => g

/-- Grid state carried by a scan outcome. -/
def scanState : ScanOut → GState
  | .ret _ g _ => g
  | .cont _ g _ => g

/-- Counters carried by a scan outcome. -/
def scanStats : ScanOut → Counters
  | .ret _ _ st => st
  | .cont _ _ st => st

/-- The rule engines count rules but never touch the backtracking
counters: `backtrackingTries` and `backtrackingLevel` are preserved. -/
def PreservesTL (a b : Counters) : Prop :=
  a.backtrackingTries = b.backtrackingTries ∧
  a.backtrackingLevel = b.backtrackingLevel

/-! ## Specification predicates and concrete instances -/

/-- Pointwise sub-grid: every cell of `a` holds a submask of the same cell
of `b` (candidates were only removed). -/
def SubG (a b : GState) : Prop := ∀ i, Submask (gcell a i) (gcell b i)

/-- All cell masks of the grid are 9-bit words (the representation
invariant of the C `unsigned short int` masks). -/
def MasksBounded (g : GState) : Prop := ∀ i, gcell g i < 512

/-- Number of hypothesis announcements in a trace. -/
def countHyp (tr : List Ev) : Nat :=
  (tr.filter fun e => match e with | .hypothesis _ _ => true | _ => false).length

/-- Value of cell `i` (flat index) of an `int[9][9]`. -/
def iget81 (g : I9) (i : Nat) : Int := iget g (i / 9) (i % 9)

/-- `s` is a sudoku solution of the puzzle `g`: every cell holds `1..9`,
every given of `g` is kept, and no region repeats a value. -/
def isSudokuSolution (s g : I9) : Bool :=
  ((List.range 81).all fun i =>
      decide (1 ≤ iget81 s i) && decide (iget81 s i ≤ 9)) &&
  ((List.range 81).all fun i => iget81 g i == 0 || iget81 s i == iget81 g i) &&
  ((List.range 27).all fun ir => (List.range 9).all fun a => (List.range 9).all fun b =>
      a == b || iget81 s (regionCell ir a) != iget81 s (regionCell ir b))

/-- Inconsistent givens: two cells of row `A` both hold `1`
(scenario of test (P6)). -/
def cexInconsistent : I9 :=
  [[1, 1, 0, 0, 0, 0, 0, 0, 0],
   [0, 0, 0, 0, 0, 0, 0, 0, 0],
   [0, 0, 0, 0, 0, 0, 0, 0, 0],
   [0, 0, 0, 0, 0, 0, 0, 0, 0],
   [0, 0, 0, 0, 0, 0, 0, 0, 0],
   [0, 0, 0, 0, 0, 0, 0, 0, 0],
   [0, 0, 0, 0, 0, 0, 0, 0, 0],
   [0, 0, 0, 0, 0, 0, 0, 0, 0],
   [0, 0, 0, 0, 0, 0, 0, 0, 0]]

/-- A fully solved, valid grid (its own unique completion). -/
def cexSolved : I9 :=
  [[1, 2, 3, 4, 5, 6, 7, 8, 9],
   [4, 5, 6, 7, 8, 9, 1, 2, 3],
   [7, 8, 9, 1, 2, 3, 4, 5, 6],
   [2, 3, 1, 5, 6, 4, 8, 9, 7],
   [5, 6, 4, 8, 9, 7, 2, 3, 1],
   [8, 9, 7, 2, 3, 1, 5, 6, 4],
   [3, 1, 2, 6, 4, 5, 9, 7, 8],
   [6, 4, 5, 9, 7, 8, 3, 1, 2],
   [9, 7, 8, 3, 1, 2, 6, 4, 5]]

/-- The all-empty grid (scenario 4 of the spec). -/
def cexEmpty : I9 := List.replicate 9 (List.replicate 9 0)

/-- A grid with the out-of-range value `10` (scenario 6 of the spec). -/
def cexOutOfRange : I9 :=
  [[10, 0, 0, 0, 0, 0, 0, 0, 0],
   [0, 0, 0, 0, 0, 0, 0, 0, 0],
   [0, 0, 0, 0, 0, 0, 0, 0, 0],
   [0, 0, 0, 0, 0, 0, 0, 0, 0],
   [0, 0, 0, 0, 0, 0, 0, 0, 0],
   [0, 0, 0, 0, 0, 0, 0, 0, 0],
   [0, 0, 0, 0, 0, 0, 0, 0, 0],
   [0, 0, 0, 0, 0, 0, 0, 0, 0],
   [0, 0, 0, 0, 0, 0, 0, 0, 0]]

/-! ## Helper lemmas -/

theorem getD_set_self {α} (l : List α) (i : Nat) (v d : α) :
    (l.set i v).getD i d = if i < l.length then v else l.getD i d := by
  simp only [List.getD_eq_getElem?_getD, List.getElem?_set_self']
  cases Nat.lt_or_ge i l.length with
  | inl h => simp [List.getElem?_eq_getElem h, h]
  | inr h => simp [List.getElem?_eq_none h, Nat.not_lt.2 h]

theorem getD_set_ne {α} (l : List α) {i j : Nat} (v d : α) (h : i ≠ j) :
    (l.set i v).getD j d = l.getD j d := by
  simp [List.getD_eq_getElem?_getD, List.getElem?_set_ne h]

theorem getD_append_left {α} {l l' : List α} {j : Nat} (d : α)
    (h : j < l.length) : (l ++ l').getD j d = l.getD j d := by
  simp [List.getD_eq_getElem?_getD, List.getElem?_append_left h]

theorem CLEAR_zero (m : Nat) : CLEAR 0 m = 0 := Nat.zero_and (m ^^^ 65535)

/-- Clearing the same mask twice is the same as clearing it once. -/
theorem CLEAR_CLEAR (v m : Nat) : CLEAR (CLEAR v m) m = CLEAR v m := by
  unfold CLEAR
  rw [Nat.land_assoc, Nat.land_self_eq]

/-- `grid_cell_changed` touches only the `changed` flags. -/
theorem grid_cell_changed_cells (g : GState) (ci : Nat) :
    ((grid_cell_changed g ci).1).cells = g.cells := rfl

theorem gcell_grid_cell_changed (g : GState) (ci j : Nat) :
    gcell ((grid_cell_changed g ci).1) j = gcell g j := rfl

/-- Effect of the `value &= ~mask` write on a cell read. -/
theorem gcell_setCell_clear (g : GState) (i X j : Nat) :
    gcell (setCell g i (CLEAR (gcell g i) X)) j =
      if j = i then CLEAR (gcell g j) X else gcell g j := by
  unfold gcell setCell
  by_cases hj : j = i
  · subst hj
    simp only [if_pos rfl]
    rw [getD_set_self]
    by_cases hlen : j < g.cells.length
    · simp [hlen]
    · simp only [if_neg hlen, List.getD_eq_getElem?_getD,
        List.getElem?_eq_none (Nat.le_of_not_lt hlen), Option.getD_none]
      rw [CLEAR_zero]
      simp
  · simp only [if_neg hj]
    exact getD_set_ne _ _ _ fun hij => hj (hij ▸ rfl)

theorem MasksBounded.of_all (g : GState)
    (h : g.cells.all (fun v => decide (v < 512)) = true) : MasksBounded g := by
  intro i
  unfold gcell
  by_cases hi : i < g.cells.length
  · rw [List.getD_eq_getElem _ _ hi]
    exact of_decide_eq_true (List.all_eq_true.1 h _ (List.getElem_mem hi))
  · simp [List.getD_eq_getElem?_getD, List.getElem?_eq_none (Nat.le_of_not_lt hi)]

/-! ## C7: out-of-range input is rejected before anything happens -/

/-- **C7.** For every input grid containing a value outside `0..N`, every
method and every mode, `sudoku_solve` returns `NONE` immediately, leaving
the arena untouched and emitting no grid event. -/
theorem sudoku_solve_rejects_out_of_range (fuel : Nat) (sto : Store)
    (gi : Nat) (meth : Method) (find : Find)
    (h : int9x9_out_of_range (sto.getD gi []) = true) :
    sudoku_solve fuel sto gi meth find = some ⟨Method.NONE, sto, []⟩ := by
  unfold sudoku_solve
  simp only [List.getD_eq_getElem?_getD] at h
  simp [h]

/-- Witness for C7 at the grid holding the value `10` (spec scenario 6). -/
theorem sudoku_solve_rejects_out_of_range_witness :
    sudoku_solve 5 [cexOutOfRange] 0 Method.ELIMINATION Find.FIRST =
      some ⟨Method.NONE, [cexOutOfRange], []⟩ :=
  sudoku_solve_rejects_out_of_range 5 [cexOutOfRange] 0 Method.ELIMINATION
    Find.FIRST (by decide)

/-! ## C10: intersection skims never report a contradiction -/

theorem intersection_skim_ret_nonneg (ii : Nat) (g : GState) (st : Counters) :
    0 ≤ (intersection_skim ii g st).ret := by
  unfold intersection_skim
  by_cases hc :
      ((List.range 6).foldl (fun a k => a ||| gcell g (interR1 ii k)) 0 ^^^
        (List.range 6).foldl (fun a k => a ||| gcell g (interR2 ii k)) 0) ≠ 0
  · simp only [if_pos hc]
    exact Int.natCast_nonneg _
  · simp only [if_neg hc]
    exact Int.natCast_nonneg _

theorem gridSkimIntersectionsGo_nonneg :
    ∀ (iis : List Nat) (sk : Int) (g : GState) (st : Counters) (tr : List Ev),
      0 ≤ sk → 0 ≤ (gridSkimIntersectionsGo iis sk g st tr).ret := by
  intro iis
  induction iis with
  | nil => intro sk g st tr h; exact h
  | cons ii iis ih =>
    intro sk g st tr h
    unfold gridSkimIntersectionsGo
    split
    · exact ih sk g st tr h
    · dsimp only
      split
      · exact ih _ _ _ _ (Int.add_nonneg h (le_of_lt (by assumption)))
      · exact ih _ _ _ _ h

/-- **C10.** `intersection_skim` returns the population count of a mask —
never a negative value — and consequently `grid_skimIntersections` is
non-negative, so the elimination driver's invalid-grid branch guarded by a
negative intersection-skim result can never be taken. -/
theorem intersection_skim_nonneg :
    (∀ (ii : Nat) (g : GState) (st : Counters), 0 ≤ (intersection_skim ii g st).ret) ∧
    (∀ (g : GState) (st : Counters), 0 ≤ (grid_skimIntersections g st).ret) :=
  ⟨intersection_skim_ret_nonneg, fun g st =>
    gridSkimIntersectionsGo_nonneg (List.range 54) 0 g st [] (le_refl 0)⟩

/-! ## C9: the caller's input array is never written -/

/-- The backtracking value loop only appends fresh clones to the arena. -/
theorem btLoop_store_extends
    (solve : Store → Nat → Counters → BtOut)
    (hs : ∀ s j stc, ∃ ext, (solve s j stc).sto = s ++ ext)
    (gi l c : Nat) (find : Find) :
    ∀ (vs : List Int) (rc : Int) (sto : Store) (st : Counters) (tr : List Ev),
      ∃ ext, (btLoop solve gi l c find vs rc sto st tr).sto = sto ++ ext := by
  intro vs
  induction vs with
  | nil => intro rc sto st tr; exact ⟨[], (List.append_nil sto).symm⟩
  | cons v vs ih =>
    intro rc sto st tr
    unfold btLoop
    dsimp only
    split
    · exact ih rc sto st tr
    · obtain ⟨e1, he1⟩ := hs (sto ++ [iset (sto.getD gi []) l c v]) sto.length
        { st with backtrackingTries := st.backtrackingTries + 1 }
      split
      · split
        · exact ⟨[iset (sto.getD gi []) l c v] ++ e1, by rw [he1, List.append_assoc]⟩
        · obtain ⟨e2, he2⟩ := ih 1 _ _ _
          exact ⟨[iset (sto.getD gi []) l c v] ++ e1 ++ e2, by
            rw [he2, he1]; simp [List.append_assoc]⟩
      · obtain ⟨e2, he2⟩ := ih rc _ _ _
        exact ⟨[iset (sto.getD gi []) l c v] ++ e1 ++ e2, by
          rw [he2, he1]; simp [List.append_assoc]⟩

/-- The backtracking solver only appends to the arena. -/
theorem int9x9_solveByBacktracking_store_extends :
    ∀ (fuel : Nat) (sto : Store) (gi : Nat) (find : Find) (st : Counters),
      ∃ ext, (int9x9_solveByBacktracking fuel sto gi find st).sto = sto ++ ext := by
  intro fuel
  induction fuel with
  | zero => intro sto gi find st; exact ⟨[], (List.append_nil sto).symm⟩
  | succ fuel ih =>
    intro sto gi find st
    unfold int9x9_solveByBacktracking
    dsimp only
    split
    · exact btLoop_store_extends _ (fun s j stc => ih s j find stc) gi _ _ find
        _ 0 sto st []
    · exact ⟨[], (List.append_nil sto).symm⟩

/-- **C9.** For every input, method and mode, `sudoku_solve` leaves the
caller's input array unchanged: every array that existed before the call —
in particular the input array — holds the same value afterwards.  The
elimination method reads the array once to build its internal grid, and the
backtracking method `memcpy`s the array into a fresh clone before every
speculative placement. -/
theorem sudoku_solve_preserves_input (fuel : Nat) (sto : Store) (gi : Nat)
    (meth : Method) (find : Find) (out : SolveOut)
    (hout : sudoku_solve fuel sto gi meth find = some out) :
    ∀ j, j < sto.length → out.sto.getD j [] = sto.getD j [] := by
  intro j hj
  unfold sudoku_solve at hout
  by_cases hrange : int9x9_out_of_range (sto.getD gi []) = true
  · rw [if_pos hrange] at hout
    cases hout
    rfl
  · rw [if_neg hrange] at hout
    cases meth with
    | ELIMINATION =>
      dsimp only at hout
      cases hdrv : grid_solveByElimination fuel
          (grid_init_from_int9x9 (sto.getD gi [])) find stats0 with
      | none => rw [hdrv] at hout; cases hout
      | some o => rw [hdrv] at hout; cases hout; rfl
    | BACKTRACKING =>
      dsimp only at hout
      split at hout
      · cases hout; rfl
      · obtain ⟨ext, hext⟩ :=
          int9x9_solveByBacktracking_store_extends fuel sto gi find stats0
        split at hout <;> cases hout <;>
          simp only [hext] <;> exact getD_append_left _ hj
    | EXACT_COVER =>
      dsimp only at hout
      split at hout <;> (cases hout; rfl)
    | NONE =>
      dsimp only at hout
      cases hout
      rfl

/-- Witness for C9: a backtracking run on the solved grid returns an arena
whose slot 0 still holds the input array. -/
theorem sudoku_solve_preserves_input_witness :
    ((sudoku_solve 1 [cexSolved] 0 Method.BACKTRACKING Find.FIRST).getD
        ⟨Method.NONE, [], []⟩).sto.getD 0 [] = [cexSolved].getD 0 [] :=
  sudoku_solve_preserves_input 1 [cexSolved] 0 Method.BACKTRACKING Find.FIRST
    _ (by decide) 0 (by decide)

/-! ## C8: handler registration is idempotent; dispatch follows
registration order -/

/-- The walk-to-tail duplicate re-check can never fire for a handler that
is not in the list: the append goes through. -/
theorem tailInsert_of_not_mem :
    ∀ (l : List Nat) (h : Nat), h ∉ l → tailInsert l h = some (l ++ [h]) := by
  intro l
  induction l with
  | nil => intro h _; rfl
  | cons x xs ih =>
    intro h hmem
    cases xs with
    | nil => rfl
    | cons y ys =>
      have hx : x ≠ h := fun e => hmem (e ▸ List.mem_cons_self x _)
      have hy : y ≠ h := fun e =>
        hmem (List.mem_cons_of_mem x (e ▸ List.mem_cons_self y _))
      unfold tailInsert
      rw [if_neg (by simp [hx, hy])]
      rw [ih h (fun hm => hmem (List.mem_cons_of_mem x hm))]
      rfl

/-- `addKind` in closed form: a duplicate or an unselected kind leaves the
list alone, otherwise the handler is appended at the tail; the early
`return` (`none`) is dead code. -/
theorem addKind_eq (l : List Nat) (tbit typ h : Nat) :
    addKind l tbit typ h =
      some (if h ∉ l ∧ typ &&& tbit ≠ 0 then l ++ [h] else l) := by
  unfold addKind
  by_cases hm : h ∈ l
  · rw [if_pos hm]
    simp only [Nat.and_zero]
    rw [if_neg (by simp)]
    exact (if_neg (fun hc : h ∉ l ∧ typ &&& tbit ≠ 0 => hc.1 hm)).symm ▸ rfl
  · rw [if_neg hm]
    by_cases ht : typ &&& tbit ≠ 0
    · rw [if_pos ht, if_pos ⟨hm, ht⟩]
      cases l with
      | nil => rfl
      | cons x xs => exact tailInsert_of_not_mem _ _ hm
    · rw [if_neg ht]
      exact (if_neg (fun hc : h ∉ l ∧ typ &&& tbit ≠ 0 => ht hc.2)).symm ▸ rfl

/-- **C8.** Registering a grid-event handler already registered for an
event kind leaves that kind's handler list unchanged; registering a new
handler for a selected kind appends it at the tail, so that dispatch —
which invokes the stored handlers in list order, passing the grid
identifier and the event payload — reaches handlers in registration order,
the new handler last. -/
theorem handler_add_idempotent_ordered (b : Bus) (typ h k : Nat)
    (hk : k < 3) :
    (h ∈ busList b k →
      busList (sudoku_grid_event_handler_add typ h b) k = busList b k) ∧
    (h ∉ busList b k → typ &&& kindBit k ≠ 0 →
      busList (sudoku_grid_event_handler_add typ h b) k = busList b k ++ [h] ∧
      (h ≠ 0 → ∀ id args,
        dispatchCalls (busList (sudoku_grid_event_handler_add typ h b) k) id args =
          dispatchCalls (busList b k) id args ++ [(h, id, args)])) := by
  have hadd : sudoku_grid_event_handler_add typ h b =
      ⟨if h ∉ b.onInit ∧ typ &&& 1 ≠ 0 then b.onInit ++ [h] else b.onInit,
       if h ∉ b.onChange ∧ typ &&& 2 ≠ 0 then b.onChange ++ [h] else b.onChange,
       if h ∉ b.onSolved ∧ typ &&& 4 ≠ 0 then b.onSolved ++ [h] else b.onSolved⟩ := by
    unfold sudoku_grid_event_handler_add
    rw [addKind_eq, addKind_eq, addKind_eq]
  constructor
  · intro hmem
    rw [hadd]
    interval_cases k <;>
      simp only [busList] at hmem ⊢ <;> rw [if_neg (fun hc => hc.1 hmem)]
  · intro hmem htyp
    have hlist : busList (sudoku_grid_event_handler_add typ h b) k =
        busList b k ++ [h] := by
      rw [hadd]
      interval_cases k <;>
        simp only [busList, kindBit] at hmem htyp ⊢ <;> rw [if_pos ⟨hmem, htyp⟩]
    refine ⟨hlist, fun hnz id args => ?_⟩
    rw [hlist]
    unfold dispatchCalls
    rw [List.filterMap_append]
    simp [hnz]

/-- Witness for C8: re-registering handler `5` for `ON_CHANGE` is a no-op,
and registering the fresh handler `7` appends it behind `5`. -/
theorem handler_add_idempotent_ordered_witness :
    busList (sudoku_grid_event_handler_add 2 5 ⟨[], [5], []⟩) 1 =
        busList ⟨[], [5], []⟩ 1 ∧
      busList (sudoku_grid_event_handler_add 2 7 ⟨[], [5], []⟩) 1 =
        busList ⟨[], [5], []⟩ 1 ++ [7] :=
  ⟨(handler_add_idempotent_ordered ⟨[], [5], []⟩ 2 5 1 (by decide)).1 (by decide),
   ((handler_add_idempotent_ordered ⟨[], [5], []⟩ 2 7 1 (by decide)).2
      (by decide) (by decide)).1⟩

/-! ## C5: characterisation of `intersection_skim` -/

/-- On a 16-bit word, `v &= ~0` is the identity. -/
theorem CLEAR_zero_mask {v : Nat} (hv : v < 65536) : CLEAR v 0 = v := by
  unfold CLEAR
  apply Nat.eq_of_testBit_eq
  intro i
  rw [Nat.testBit_land]
  rw [show (0 ^^^ 65535 : Nat) = 2 ^ 16 - 1 from rfl, Nat.testBit_two_pow_sub_one]
  by_cases hi : i < 16
  · simp [hi]
  · have h16 : (65536 : Nat) ≤ 2 ^ i := by
      calc (65536 : Nat) = 2 ^ 16 := rfl
        _ ≤ 2 ^ i := Nat.pow_le_pow_right (by omega) (Nat.le_of_not_lt hi)
    rw [Nat.testBit_eq_false_of_lt (lt_of_lt_of_le hv h16)]
    simp

/-- Pointwise effect of the clearing loop of `intersection_skim`: every
listed cell loses the bits of `X`, every other cell is untouched. -/
theorem interClearGo_gcell (X : Nat) :
    ∀ (L : List Nat) (g : GState) (j : Nat),
      gcell (interClearGo X L g) j =
        if j ∈ L then CLEAR (gcell g j) X else gcell g j := by
  intro L
  induction L with
  | nil => intro g j; simp [interClearGo]
  | cons ci cs ih =>
    intro g j
    unfold interClearGo
    dsimp only
    rw [ih]
    have hg2 : ∀ jj, gcell
        (if CLEAR (gcell g ci) X ≠ gcell g ci then
          (grid_cell_changed (setCell g ci (CLEAR (gcell g ci) X)) ci).1
        else setCell g ci (CLEAR (gcell g ci) X)) jj =
        if jj = ci then CLEAR (gcell g jj) X else gcell g jj := by
      intro jj
      have hsc := gcell_setCell_clear g ci X jj
      split
      · rw [gcell_grid_cell_changed, hsc]
      · rw [hsc]
    rw [hg2]
    by_cases hcs : j ∈ cs
    · by_cases hci : j = ci <;> simp [hcs, hci, CLEAR_CLEAR]
    · by_cases hci : j = ci <;> simp [hcs, hci, CLEAR_CLEAR]

/-- **C5.** `intersection_skim` computes `A`, the union of the masks of the
box cells outside the overlap (`r2_cell`), and `B`, the union of the masks
of the line cells outside the overlap (`r1_cell`); it removes every value of
the symmetric difference `A ⊕ B` from all those outside cells, leaves every
other cell untouched, and returns the number of values in `A ⊕ B`. -/
theorem intersection_skim_characterisation (ii : Nat) (g : GState)
    (st : Counters) (hb : MasksBounded g) :
    (intersection_skim ii g st).ret =
      ((NB_BITS (((List.range 6).foldl (fun a k => a ||| gcell g (interR2 ii k)) 0) ^^^
        ((List.range 6).foldl (fun a k => a ||| gcell g (interR1 ii k)) 0)) : Nat) : Int) ∧
    (∀ k, k < 6 →
      gcell (intersection_skim ii g st).g (interR1 ii k) =
        CLEAR (gcell g (interR1 ii k))
          (((List.range 6).foldl (fun a k => a ||| gcell g (interR2 ii k)) 0) ^^^
            ((List.range 6).foldl (fun a k => a ||| gcell g (interR1 ii k)) 0))) ∧
    (∀ k, k < 6 →
      gcell (intersection_skim ii g st).g (interR2 ii k) =
        CLEAR (gcell g (interR2 ii k))
          (((List.range 6).foldl (fun a k => a ||| gcell g (interR2 ii k)) 0) ^^^
            ((List.range 6).foldl (fun a k => a ||| gcell g (interR1 ii k)) 0))) ∧
    (∀ j, (∀ k, k < 6 → interR1 ii k ≠ j ∧ interR2 ii k ≠ j) →
      gcell (intersection_skim ii g st).g j = gcell g j) := by
  have hxc : ((List.range 6).foldl (fun a k => a ||| gcell g (interR2 ii k)) 0) ^^^
      ((List.range 6).foldl (fun a k => a ||| gcell g (interR1 ii k)) 0) =
      ((List.range 6).foldl (fun a k => a ||| gcell g (interR1 ii k)) 0) ^^^
      ((List.range 6).foldl (fun a k => a ||| gcell g (interR2 ii k)) 0) :=
    Nat.xor_comm _ _
  rw [hxc]
  set v0 := (List.range 6).foldl (fun a k => a ||| gcell g (interR1 ii k)) 0 with hv0
  set v1 := (List.range 6).foldl (fun a k => a ||| gcell g (interR2 ii k)) 0 with hv1
  unfold intersection_skim
  rw [← hv0, ← hv1]
  by_cases hz : v0 ^^^ v1 ≠ 0
  · rw [if_pos hz]
    dsimp only
    have hR1 := interClearGo_gcell (v0 ^^^ v1) ((List.range 6).map (interR1 ii)) g
    have hR2 := interClearGo_gcell (v0 ^^^ v1) ((List.range 6).map (interR2 ii))
      (interClearGo (v0 ^^^ v1) ((List.range 6).map (interR1 ii)) g)
    refine ⟨rfl, ?_, ?_, ?_⟩
    · intro k hk
      rw [hR2, hR1]
      have hmem : interR1 ii k ∈ (List.range 6).map (interR1 ii) :=
        List.mem_map_of_mem _ (List.mem_range.2 hk)
      by_cases hmem2 : interR1 ii k ∈ (List.range 6).map (interR2 ii) <;>
        simp [hmem, hmem2, CLEAR_CLEAR]
    · intro k hk
      rw [hR2, hR1]
      have hmem : interR2 ii k ∈ (List.range 6).map (interR2 ii) :=
        List.mem_map_of_mem _ (List.mem_range.2 hk)
      by_cases hmem1 : interR2 ii k ∈ (List.range 6).map (interR1 ii) <;>
        simp [hmem, hmem1, CLEAR_CLEAR]
    · intro j hj
      have hn1 : j ∉ (List.range 6).map (interR1 ii) := by
        intro hc
        obtain ⟨k, hk, he⟩ := List.mem_map.1 hc
        exact (hj k (List.mem_range.1 hk)).1 he
      have hn2 : j ∉ (List.range 6).map (interR2 ii) := by
        intro hc
        obtain ⟨k, hk, he⟩ := List.mem_map.1 hc
        exact (hj k (List.mem_range.1 hk)).2 he
      rw [hR2, hR1]
      simp [hn1, hn2]
  · rw [if_neg hz]
    have hz0 : v0 ^^^ v1 = 0 := by simpa using hz
    rw [hz0]
    have hcl : ∀ j, CLEAR (gcell g j) 0 = gcell g j := fun j =>
      CLEAR_zero_mask (lt_trans (hb j) (by omega))
    exact ⟨rfl, fun k _ => (hcl _).symm, fun k _ => (hcl _).symm, fun j _ => rfl⟩

/-- Witness for C5 at intersection 0 of the grid built from the
inconsistent example (masks are all 9-bit). -/
theorem intersection_skim_characterisation_witness :
    (intersection_skim 0 (grid_init_from_int9x9 cexInconsistent) stats0).ret =
      (NB_BITS
        (((List.range 6).foldl
            (fun a k => a ||| gcell (grid_init_from_int9x9 cexInconsistent) (interR2 0 k)) 0) ^^^
          ((List.range 6).foldl
            (fun a k => a ||| gcell (grid_init_from_int9x9 cexInconsistent) (interR1 0 k)) 0)) : Int) :=
  (intersection_skim_characterisation 0 (grid_init_from_int9x9 cexInconsistent)
    stats0 (MasksBounded.of_all _ (by decide))).1

/-! ## C1: behaviour of the three methods on an inconsistent given

The backtracking and exact-cover methods return `NONE` as the
specification demands, but the elimination branch of `sudoku_solve`
discards the failure code of `grid_solveByElimination` (the local
`ret = 0` is dead) and returns
`backtrackingTries ? BACKTRACKING : ELIMINATION`, here `ELIMINATION`. -/

/-- **C1** (divergence at the failing input).  On the grid with two `1`s in
row `A` — inconsistent givens — the elimination method returns
`ELIMINATION` instead of the specified `NONE`, while the backtracking and
exact-cover methods do return `NONE`. -/
theorem inconsistent_given_methods_disagree :
    iget cexInconsistent 0 0 = 1 ∧ iget cexInconsistent 0 1 = 1 ∧
    (sudoku_solve 20 [cexInconsistent] 0 Method.ELIMINATION Find.FIRST).map SolveOut.m =
      some Method.ELIMINATION ∧
    (sudoku_solve 20 [cexInconsistent] 0 Method.BACKTRACKING Find.FIRST).map SolveOut.m =
      some Method.NONE ∧
    (sudoku_solve 20 [cexInconsistent] 0 Method.EXACT_COVER Find.FIRST).map SolveOut.m =
      some Method.NONE :=
  ⟨by decide, by decide, by decide, by decide, by decide⟩

/-! ## C2: the exact-cover branch can never return `EXACT_COVER`

Both exits of the `EXACT_COVER` branch of `sudoku_solve` are
`return (NONE)`: the pre-cover failure path and the fall-through after the
search.  `solve.h` documents the return value as the method effectively
used and `main.c` maps `EXACT_COVER` to exit code 3, but the function
returns `NONE` (exit code 0) even when the search solved the grid. -/

/-- **C2** (divergence at the failing input).  On a well-formed grid that
is its own solution, `sudoku_solve` with `EXACT_COVER` returns `NONE`, not
`EXACT_COVER`. -/
theorem exact_cover_returns_NONE_on_solvable :
    int9x9_out_of_range cexSolved = false ∧
    isSudokuSolution cexSolved cexSolved = true ∧
    (sudoku_solve 5 [cexSolved] 0 Method.EXACT_COVER Find.FIRST).map SolveOut.m =
      some Method.NONE :=
  ⟨by decide, by decide, by decide⟩

/-! ## C3: the return protocol of `region_skim` -/

/-- One batch of the source scan agrees with the spec-worded scan, the
`stop` flag corresponding to a recorded size-1 firing. -/
theorem regionScan_eq_spec (ir : Nat) :
    ∀ (l : List Nat) (f : Bool) (g : GState) (st : Counters),
      regionScan ir l (if f then 1 else 0) g st =
        mapSpecScan (regionScanSpec ir l f g st) := by
  intro l
  induction l with
  | nil => intro f g st; rfl
  | cons bits rest ih =>
    intro f g st
    unfold regionScan regionScanSpec
    dsimp only
    split
    · rfl
    · split
      · rfl
      · rename_i hall1 hstep1 g1 lvl1 heq1
        split
        · rfl
        · rename_i hlvl1
          split
          · rfl
          · split
            · rfl
            · rename_i hall2 hstep2 g2 lvl2 heq2
              split
              · rfl
              · rename_i hlvl2
                have hb1 : lvl1 ≤ 1 := Nat.le_of_not_lt hlvl1
                have hb2 : lvl2 ≤ 1 := Nat.le_of_not_lt hlvl2
                have hstop :
                    (if lvl2 ≠ 0 then lvl2 else
                      if lvl1 ≠ 0 then lvl1 else if f then 1 else 0) =
                    (if (f || decide (lvl1 ≠ 0)) || decide (lvl2 ≠ 0)
                      then 1 else 0) := by
                  interval_cases lvl1 <;> interval_cases lvl2 <;>
                    cases f <;> simp
                rw [hstop]
                exact ih _ g2 _

/-- Members of a batch of the subset table have the batch's cardinality. -/
theorem NB_BITS_of_mem_subsetsOfSize {d b : Nat} (h : b ∈ subsetsOfSize d) :
    NB_BITS b = d := by
  unfold subsetsOfSize at h
  exact of_decide_eq_true (List.mem_filter.1 h).2

/-- The candidate-exclusion clearing loop either does nothing or sets
`skimLevel` to the subset's cardinality. -/
theorem candClearGo_ok_cases (ir bits values : Nat) :
    ∀ (cs : List Nat) (g : GState) (l : Nat) (g' : GState) (l' : Nat),
      candClearGo ir bits values cs g l = .ok (g', l') →
      (g' = g ∧ l' = l) ∨ l' = NB_BITS bits := by
  intro cs
  induction cs with
  | nil =>
    intro g l g' l' h
    cases h
    exact .inl ⟨rfl, rfl⟩
  | cons c cs ih =>
    intro g l g' l' h
    unfold candClearGo at h
    dsimp only at h
    split at h
    · split at h
      · split at h
        · cases h
        · rcases ih _ _ _ _ h with ⟨_, hl⟩ | hl
          · exact .inr hl
          · exact .inr hl
      · exact ih _ _ _ _ h
    · exact ih _ _ _ _ h

/-- The value-exclusion clearing loop either does nothing or sets
`skimLevel` to `nbbits`. -/
theorem valClearGo_ok_cases (ir cellsMask othervalues : Nat) :
    ∀ (cs : List Nat) (g : GState) (l : Nat) (nbbits : Nat) (g' : GState) (l' : Nat),
      valClearGo ir cellsMask othervalues cs g l nbbits = .ok (g', l') →
      (g' = g ∧ l' = l) ∨ l' = nbbits := by
  intro cs
  induction cs with
  | nil =>
    intro g l nbbits g' l' h
    cases h
    exact .inl ⟨rfl, rfl⟩
  | cons c cs ih =>
    intro g l nbbits g' l' h
    unfold valClearGo at h
    dsimp only at h
    split at h
    · split at h
      · split at h
        · cases h
        · rcases ih _ _ _ _ _ h with ⟨_, hl⟩ | hl
          · exact .inr hl
          · exact .inr hl
      · exact ih _ _ _ _ _ h
    · exact ih _ _ _ _ _ h

/-- A scan that ends with `stop = 0` started with `stop = 0` and neither
changed the grid nor counted a rule. -/
theorem regionScan_cont_zero (ir : Nat) :
    ∀ (l : List Nat), (∀ b ∈ l, NB_BITS b ≠ 0) →
      ∀ (s : Nat) (g : GState) (st : Counters) (g' : GState) (st' : Counters),
        regionScan ir l s g st = .cont 0 g' st' → s = 0 ∧ g' = g ∧ st' = st := by
  intro l
  induction l with
  | nil =>
    intro _ s g st g' st' h
    cases h
    exact ⟨rfl, rfl, rfl⟩
  | cons bits rest ih =>
    intro hnz s g st g' st' h
    have hbits : NB_BITS bits ≠ 0 := hnz bits (List.mem_cons_self _ _)
    have hrest : ∀ b ∈ rest, NB_BITS b ≠ 0 :=
      fun b hb => hnz b (List.mem_cons_of_mem _ hb)
    unfold regionScan at h
    dsimp only at h
    split at h
    · exact ScanOut.noConfusion h
    · split at h
      · exact ScanOut.noConfusion h
      · rename_i hall1 hstep1 g1 lvl1 heq1
        split at h
        · exact ScanOut.noConfusion h
        · rename_i hlvl1
          split at h
          · exact ScanOut.noConfusion h
          · split at h
            · exact ScanOut.noConfusion h
            · rename_i hall2 hstep2 g2 lvl2 heq2
              split at h
              · exact ScanOut.noConfusion h
              · rename_i hlvl2
                obtain ⟨hs2, hg', hst'⟩ := ih hrest _ _ _ _ _ h
                obtain ⟨hl2, hl1, hs0⟩ : lvl2 = 0 ∧ lvl1 = 0 ∧ s = 0 := by
                  by_cases h2 : lvl2 ≠ 0
                  · rw [if_pos h2] at hs2; exact absurd hs2 h2
                  · rw [if_neg h2] at hs2
                    simp only [ne_eq, not_not] at h2
                    by_cases h1 : lvl1 ≠ 0
                    · rw [if_pos h1] at hs2; exact absurd hs2 h1
                    · rw [if_neg h1] at hs2
                      simp only [ne_eq, not_not] at h1
                      exact ⟨h2, h1, hs2⟩
                have hg1 : g1 = g := by
                  by_cases hc : NB_BITS (regionValuesOf g ir bits) = NB_BITS bits
                  · rw [if_pos hc] at heq1
                    rcases candClearGo_ok_cases _ _ _ _ _ _ _ _ heq1 with
                      ⟨hgg, _⟩ | hwrong
                    · exact hgg
                    · omega
                  · rw [if_neg hc] at heq1
                    cases heq1
                    rfl
                have hg2 : g2 = g1 := by
                  by_cases hc : NB_BITS bits = NB_BITS (regionCellsOf g1 ir bits)
                  · rw [if_pos hc] at heq2
                    rcases valClearGo_ok_cases _ _ _ _ _ _ _ _ _ heq2 with
                      ⟨hgg, _⟩ | hwrong
                    · exact hgg
                    · omega
                  · rw [if_neg hc] at heq2
                    cases heq2
                    rfl
                rw [hl1, hl2] at hst'
                simp only [ne_eq, not_true_eq_false, if_false] at hst'
                exact ⟨hs0, hg'.trans (hg2.trans hg1), by simpa using hst'⟩

/-- An early return of the scan is `-1` or a level above `1`. -/
theorem regionScan_ret_val (ir : Nat) :
    ∀ (l : List Nat) (s : Nat) (g : GState) (st : Counters) (k : Int)
      (g' : GState) (st' : Counters),
      regionScan ir l s g st = .ret k g' st' → k = -1 ∨ 1 < k := by
  intro l
  induction l with
  | nil => intro s g st k g' st' h; exact ScanOut.noConfusion h
  | cons bits rest ih =>
    intro s g st k g' st' h
    unfold regionScan at h
    dsimp only at h
    split at h
    · cases h; exact .inl rfl
    · split at h
      · cases h; exact .inl rfl
      · rename_i hall1 hstep1 g1 lvl1 heq1
        split at h
        · cases h
          exact .inr (by exact_mod_cast (by assumption : 1 < lvl1))
        · split at h
          · cases h; exact .inl rfl
          · split at h
            · cases h; exact .inl rfl
            · rename_i g2 lvl2 heq2
              split at h
              · cases h
                exact .inr (by exact_mod_cast (by assumption : 1 < lvl2))
              · exact ih _ _ _ _ _ _ h

/-- `region_skim`'s depth loop exits immediately once `stop` is set. -/
theorem regionSkimGo_stop_ne (ir : Nat) (ds : List Nat) (s : Nat)
    (g : GState) (st : Counters) (hs : s ≠ 0) :
    regionSkimGo ir ds s g st = ⟨(s : Int), g, st⟩ := by
  cases ds with
  | nil => rfl
  | cons d ds =>
    unfold regionSkimGo
    rw [if_pos hs]

/-- Source depth loop versus spec depth loop. -/
theorem regionSkimGo_eq_spec (ir : Nat) :
    ∀ (ds : List Nat) (g : GState) (st : Counters),
      regionSkimGo ir ds 0 g st = regionSkimSpecGo ir ds g st := by
  intro ds
  induction ds with
  | nil => intro g st; rfl
  | cons d ds ih =>
    intro g st
    unfold regionSkimGo regionSkimSpecGo
    rw [if_neg (by omega)]
    have h := regionScan_eq_spec ir (subsetsOfSize d) false g st
    rw [show (if false then 1 else 0) = 0 from rfl] at h
    rw [h]
    cases hs : regionScanSpec ir (subsetsOfSize d) false g st with
    | invalid g1 st1 => rfl
    | fired k g1 st1 => rfl
    | done f g1 st1 =>
      cases f with
      | true => exact regionSkimGo_stop_ne ir ds 1 g1 st1 (by omega)
      | false => exact ih g1 st1

/-- When the depth loop reports `0`, nothing changed. -/
theorem regionSkimGo_ret_zero (ir : Nat) :
    ∀ (ds : List Nat), (∀ d ∈ ds, d ≠ 0) →
      ∀ (g : GState) (st : Counters) (g' : GState) (st' : Counters),
        regionSkimGo ir ds 0 g st = ⟨0, g', st'⟩ → g' = g ∧ st' = st := by
  intro ds
  induction ds with
  | nil =>
    intro _ g st g' st' h
    cases h
    exact ⟨rfl, rfl⟩
  | cons d ds ih =>
    intro hd g st g' st' h
    unfold regionSkimGo at h
    rw [if_neg (by omega)] at h
    cases hsc : regionScan ir (subsetsOfSize d) 0 g st with
    | ret k g1 st1 =>
      rw [hsc] at h
      dsimp only at h
      cases h
      rcases regionScan_ret_val ir _ _ _ _ _ _ _ hsc with h1 | h1
      · exact absurd h1 (by norm_num)
      · exact absurd h1 (by norm_num)
    | cont s1 g1 st1 =>
      rw [hsc] at h
      dsimp only at h
      by_cases hs1 : s1 = 0
      · subst hs1
        obtain ⟨_, hg1, hst1⟩ := regionScan_cont_zero ir _
          (fun b hb => by
            rw [NB_BITS_of_mem_subsetsOfSize hb]
            exact hd d (List.mem_cons_self _ _)) _ _ _ _ _ hsc
        obtain ⟨hg', hst'⟩ := ih (fun x hx => hd x (List.mem_cons_of_mem _ hx))
          g1 st1 g' st' h
        exact ⟨hg'.trans hg1, hst'.trans hst1⟩
      · rw [regionSkimGo_stop_ne ir ds s1 g1 st1 hs1] at h
        have hs10 : (s1 : Int) = 0 := congrArg SkimOut.ret h
        omega

/-- **C3.** `region_skim` follows exactly the protocol the specification
describes: `-1` on detecting an invalid grid (Hall violation or a mask
reaching 0), `0` — with the state untouched — when no clearing occurred,
and otherwise the subset size `k` of a clearing, returning immediately on a
firing with `k > 1` while a firing with `k == 1` lets the scan of the
size-1 subsets run to completion before returning `1`. -/
theorem region_skim_protocol :
    (∀ (ir : Nat) (g : GState) (st : Counters),
      region_skim ir g st = region_skim_spec ir g st) ∧
    (∀ (ir : Nat) (g : GState) (st : Counters),
      (region_skim ir g st).ret = 0 →
        (region_skim ir g st).g = g ∧ (region_skim ir g st).st = st) := by
  constructor
  · intro ir g st
    exact regionSkimGo_eq_spec ir [1, 2, 3, 4, 5, 6, 7, 8, 9] g st
  · intro ir g st h
    have he : regionSkimGo ir [1, 2, 3, 4, 5, 6, 7, 8, 9] 0 g st =
        ⟨0, (region_skim ir g st).g, (region_skim ir g st).st⟩ := by
      show region_skim ir g st = _
      rw [← h]
    exact regionSkimGo_ret_zero ir _ (by decide) g st _ _ he

/-- Witness for C3: on the grid state of the all-empty puzzle no region
rule clears anything, `region_skim` returns `0`, and the state is kept. -/
theorem region_skim_protocol_witness :
    (region_skim 0 (grid_init_from_int9x9 cexEmpty) stats0).g =
        grid_init_from_int9x9 cexEmpty ∧
      (region_skim 0 (grid_init_from_int9x9 cexEmpty) stats0).st = stats0 :=
  region_skim_protocol.2 0 (grid_init_from_int9x9 cexEmpty) stats0 (by decide)

/-! ## C4: cell masks only ever lose bits -/

theorem SubG.refl_grid (g : GState) : SubG g g := fun _ => Submask.refl_mask _

theorem SubG.trans_grid {a b c : GState} (h1 : SubG a b) (h2 : SubG b c) :
    SubG a c := fun i => Submask.trans_mask (h1 i) (h2 i)

/-- A `value &= ~mask` write yields a sub-grid. -/
theorem SubG.clearStep (g : GState) (ci X : Nat) :
    SubG (setCell g ci (CLEAR (gcell g ci) X)) g := by
  intro j
  rw [gcell_setCell_clear]
  by_cases hj : j = ci
  · rw [if_pos hj]; exact Submask.clear _ _
  · rw [if_neg hj]; exact Submask.refl_mask _

/-- Flag updates do not change cells. -/
theorem SubG.of_flags (g : GState) (r : List Bool) (i : List Bool) :
    SubG { g with regCh := r, intCh := i } g := fun _ => Submask.refl_mask _

theorem candClearGo_subG (ir bits values : Nat) :
    ∀ (cs : List Nat) (g : GState) (l : Nat),
      SubG (exceptState (candClearGo ir bits values cs g l)) g := by
  intro cs
  induction cs with
  | nil => intro g l; exact SubG.refl_grid g
  | cons c cs ih =>
    intro g l
    unfold candClearGo
    dsimp only
    split
    · split
      · split
        · exact fun j => (SubG.clearStep g (regionCell ir c) values j)
        · exact SubG.trans_grid (ih _ _) (SubG.clearStep g (regionCell ir c) values)
      · exact ih g l
    · exact ih g l

theorem valClearGo_subG (ir cellsMask othervalues : Nat) :
    ∀ (cs : List Nat) (g : GState) (l nbbits : Nat),
      SubG (exceptState (valClearGo ir cellsMask othervalues cs g l nbbits)) g := by
  intro cs
  induction cs with
  | nil => intro g l nbbits; exact SubG.refl_grid g
  | cons c cs ih =>
    intro g l nbbits
    unfold valClearGo
    dsimp only
    split
    · split
      · split
        · exact fun j => (SubG.clearStep g (regionCell ir c) othervalues j)
        · exact SubG.trans_grid (ih _ _ _) (SubG.clearStep g (regionCell ir c) othervalues)
      · exact ih g l nbbits
    · exact ih g l nbbits

theorem rowClearInner_subG (value row columns nbbits : Nat) :
    ∀ (cs : List Nat) (g : GState) (l : Nat),
      SubG (exceptState (rowClearInner value row columns nbbits cs g l)) g := by
  intro cs
  induction cs with
  | nil => intro g l; exact SubG.refl_grid g
  | cons col cs ih =>
    intro g l
    unfold rowClearInner
    dsimp only
    split
    · split
      · split
        · exact fun j => SubG.clearStep g (9 * row + col) (1 <<< (value - 1)) j
        · exact SubG.trans_grid (ih _ _)
            (SubG.clearStep g (9 * row + col) (1 <<< (value - 1)))
      · exact ih g l
    · exact ih g l

theorem rowClearOuter_subG (value bits columns nbbits : Nat) :
    ∀ (rs : List Nat) (g : GState) (l : Nat),
      SubG (exceptState (rowClearOuter value bits columns nbbits rs g l)) g := by
  intro rs
  induction rs with
  | nil => intro g l; exact SubG.refl_grid g
  | cons row rs ih =>
    intro g l
    unfold rowClearOuter
    split
    · cases hin : rowClearInner value row columns nbbits (List.range 9) g l with
      | error g1 =>
        have := rowClearInner_subG value row columns nbbits (List.range 9) g l
        rw [hin] at this
        exact this
      | ok p =>
        have hs := rowClearInner_subG value row columns nbbits (List.range 9) g l
        rw [hin] at hs
        exact SubG.trans_grid (ih p.1 p.2) hs
    · exact ih g l

theorem colClearInner_subG (value col rows nbbits : Nat) :
    ∀ (rs : List Nat) (g : GState) (l : Nat),
      SubG (exceptState (colClearInner value col rows nbbits rs g l)) g := by
  intro rs
  induction rs with
  | nil => intro g l; exact SubG.refl_grid g
  | cons row rs ih =>
    intro g l
    unfold colClearInner
    dsimp only
    split
    · split
      · split
        · exact fun j => SubG.clearStep g (9 * row + col) (1 <<< (value - 1)) j
        · exact SubG.trans_grid (ih _ _)
            (SubG.clearStep g (9 * row + col) (1 <<< (value - 1)))
      · exact ih g l
    · exact ih g l

theorem colClearOuter_subG (value bits rows nbbits : Nat) :
    ∀ (cs : List Nat) (g : GState) (l : Nat),
      SubG (exceptState (colClearOuter value bits rows nbbits cs g l)) g := by
  intro cs
  induction cs with
  | nil => intro g l; exact SubG.refl_grid g
  | cons col cs ih =>
    intro g l
    unfold colClearOuter
    split
    · cases hin : colClearInner value col rows nbbits (List.range 9) g l with
      | error g1 =>
        have := colClearInner_subG value col rows nbbits (List.range 9) g l
        rw [hin] at this
        exact this
      | ok p =>
        have hs := colClearInner_subG value col rows nbbits (List.range 9) g l
        rw [hin] at hs
        exact SubG.trans_grid (ih p.1 p.2) hs
    · exact ih g l

theorem regionScan_subG (ir : Nat) :
    ∀ (l : List Nat) (s : Nat) (g : GState) (st : Counters),
      SubG (scanState (regionScan ir l s g st)) g := by
  intro l
  induction l with
  | nil => intro s g st; exact SubG.refl_grid g
  | cons bits rest ih =>
    intro s g st
    unfold regionScan
    dsimp only
    split
    · exact SubG.refl_grid g
    · have h1 : SubG (exceptState (if NB_BITS (regionValuesOf g ir bits) =
          NB_BITS bits then candClearGo ir bits (regionValuesOf g ir bits)
          (List.range 9) g 0 else Except.ok (g, 0))) g := by
        split
        · exact candClearGo_subG ir bits _ (List.range 9) g 0
        · exact SubG.refl_grid g
      split
      · rename_i g1 heq1
        rw [heq1] at h1
        exact h1
      · rename_i g1 lvl1 heq1
        rw [heq1] at h1
        split
        · exact h1
        · have h2 : SubG (exceptState (if NB_BITS bits =
              NB_BITS (regionCellsOf g1 ir bits) then valClearGo ir
              (regionCellsOf g1 ir bits) (bits ^^^ 65535) (List.range 9) g1 0
              (NB_BITS bits) else Except.ok (g1, 0))) g1 := by
            split
            · exact valClearGo_subG ir _ _ (List.range 9) g1 0 _
            · exact SubG.refl_grid g1
          split
          · exact h1
          · split
            · rename_i g2 heq2
              rw [heq2] at h2
              exact SubG.trans_grid h2 h1
            · rename_i g2 lvl2 heq2
              rw [heq2] at h2
              split
              · exact SubG.trans_grid h2 h1
              · exact SubG.trans_grid (SubG.trans_grid (ih _ g2 _) h2) h1

theorem regionSkimGo_subG (ir : Nat) :
    ∀ (ds : List Nat) (s : Nat) (g : GState) (st : Counters),
      SubG (regionSkimGo ir ds s g st).g g := by
  intro ds
  induction ds with
  | nil => intro s g st; exact SubG.refl_grid g
  | cons d ds ih =>
    intro s g st
    unfold regionSkimGo
    split
    · exact SubG.refl_grid g
    · have hs := regionScan_subG ir (subsetsOfSize d) s g st
      cases hsc : regionScan ir (subsetsOfSize d) s g st with
      | ret k g1 st1 =>
        rw [hsc] at hs
        exact hs
      | cont s1 g1 st1 =>
        rw [hsc] at hs
        exact SubG.trans_grid (ih s1 g1 st1) hs

/-- `region_skim` only removes candidates. -/
theorem region_skim_subG (ir : Nat) (g : GState) (st : Counters) :
    SubG (region_skim ir g st).g g :=
  regionSkimGo_subG ir [1, 2, 3, 4, 5, 6, 7, 8, 9] 0 g st

theorem valueScan_subG (value : Nat) :
    ∀ (l : List Nat) (s : Nat) (g : GState) (st : Counters),
      SubG (scanState (valueScan value l s g st)) g := by
  intro l
  induction l with
  | nil => intro s g st; exact SubG.refl_grid g
  | cons bits rest ih =>
    intro s g st
    unfold valueScan
    dsimp only
    split
    · exact SubG.refl_grid g
    · have h1 : SubG (exceptState (if NB_BITS (rowColumnsOf g value bits) =
          NB_BITS bits then rowClearOuter value bits
          (rowColumnsOf g value bits) (NB_BITS bits) (List.range 9) g 0
          else Except.ok (g, 0))) g := by
        split
        · exact rowClearOuter_subG value bits _ _ (List.range 9) g 0
        · exact SubG.refl_grid g
      split
      · rename_i g1 heq1
        rw [heq1] at h1
        exact h1
      · rename_i g1 lvl1 heq1
        rw [heq1] at h1
        split
        · exact h1
        · have h2 : SubG (exceptState (if NB_BITS (colRowsOf g1 value bits) =
              NB_BITS bits then colClearOuter value bits
              (colRowsOf g1 value bits) (NB_BITS bits) (List.range 9) g1 0
              else Except.ok (g1, 0))) g1 := by
            split
            · exact colClearOuter_subG value bits _ _ (List.range 9) g1 0
            · exact SubG.refl_grid g1
          split
          · exact h1
          · split
            · rename_i g2 heq2
              rw [heq2] at h2
              exact SubG.trans_grid h2 h1
            · rename_i g2 lvl2 heq2
              rw [heq2] at h2
              split
              · exact SubG.trans_grid h2 h1
              · exact SubG.trans_grid (SubG.trans_grid (ih _ g2 _) h2) h1

theorem valueSkimGo_subG (value : Nat) :
    ∀ (ds : List Nat) (s : Nat) (g : GState) (st : Counters),
      SubG (valueSkimGo value ds s g st).g g := by
  intro ds
  induction ds with
  | nil => intro s g st; exact SubG.refl_grid g
  | cons d ds ih =>
    intro s g st
    unfold valueSkimGo
    split
    · exact SubG.refl_grid g
    · have hs := valueScan_subG value (subsetsOfSize d) s g st
      cases hsc : valueScan value (subsetsOfSize d) s g st with
      | ret k g1 st1 =>
        rw [hsc] at hs
        exact hs
      | cont s1 g1 st1 =>
        rw [hsc] at hs
        exact SubG.trans_grid (ih s1 g1 st1) hs

/-- `value_skim` only removes candidates. -/
theorem value_skim_subG (g : GState) (value : Nat) (st : Counters) :
    SubG (value_skim g value st).g g :=
  valueSkimGo_subG value [1, 2, 3, 4, 5, 6, 7, 8, 9] 0 g st

/-- `intersection_skim` only removes candidates. -/
theorem intersection_skim_subG (ii : Nat) (g : GState) (st : Counters) :
    SubG (intersection_skim ii g st).g g := by
  intro j
  unfold intersection_skim
  dsimp only
  split
  · dsimp only
    rw [interClearGo_gcell, interClearGo_gcell]
    split
    · split
      · exact Submask.trans_mask (Submask.clear _ _) (Submask.clear _ _)
      · exact Submask.clear _ _
    · split
      · exact Submask.clear _ _
      · exact Submask.refl_mask _
  · exact Submask.refl_mask _

theorem gridSkimRegionsGo_subG :
    ∀ (irs : List Nat) (sk : Int) (g : GState) (st : Counters) (tr : List Ev),
      SubG (gridSkimRegionsGo irs sk g st tr).g g := by
  intro irs
  induction irs with
  | nil => intro sk g st tr; exact SubG.refl_grid g
  | cons ir irs ih =>
    intro sk g st tr
    unfold gridSkimRegionsGo
    split
    · exact ih sk g st tr
    · dsimp only
      have hflag : SubG { g with regCh := g.regCh.set ir false } g :=
        fun _ => Submask.refl_mask _
      have hrs := SubG.trans_grid
        (region_skim_subG ir { g with regCh := g.regCh.set ir false } st) hflag
      split
      · exact SubG.trans_grid (ih _ _ _ _) hrs
      · split
        · exact hrs
        · exact SubG.trans_grid (ih _ _ _ _) hrs

theorem gridSkimValuesGo_subG :
    ∀ (vs : List Nat) (sk : Int) (g : GState) (st : Counters) (tr : List Ev),
      SubG (gridSkimValuesGo vs sk g st tr).g g := by
  intro vs
  induction vs with
  | nil => intro sk g st tr; exact SubG.refl_grid g
  | cons v vs ih =>
    intro sk g st tr
    unfold gridSkimValuesGo
    dsimp only
    have hvs := value_skim_subG g v st
    split
    · exact SubG.trans_grid (ih _ _ _ _) hvs
    · split
      · exact hvs
      · exact SubG.trans_grid (ih _ _ _ _) hvs

theorem gridSkimIntersectionsGo_subG :
    ∀ (iis : List Nat) (sk : Int) (g : GState) (st : Counters) (tr : List Ev),
      SubG (gridSkimIntersectionsGo iis sk g st tr).g g := by
  intro iis
  induction iis with
  | nil => intro sk g st tr; exact SubG.refl_grid g
  | cons ii iis ih =>
    intro sk g st tr
    unfold gridSkimIntersectionsGo
    split
    · exact ih sk g st tr
    · dsimp only
      have hflag : SubG { g with intCh := g.intCh.set ii false } g :=
        fun _ => Submask.refl_mask _
      have his := SubG.trans_grid
        (intersection_skim_subG ii { g with intCh := g.intCh.set ii false } st)
        hflag
      split
      · exact SubG.trans_grid (ih _ _ _ _) his
      · exact SubG.trans_grid (ih _ _ _ _) his

theorem skimLoop_subG :
    ∀ (fuel : Nat) (g : GState) (st : Counters),
      SubG (skimLoop fuel g st).2.1 g := by
  intro fuel
  induction fuel with
  | zero => intro g st; exact SubG.refl_grid g
  | succ fuel ih =>
    intro g st
    unfold skimLoop
    dsimp only
    have ha := gridSkimRegionsGo_subG (List.range 27) 0 g st []
    split
    · exact ha
    · split
      · exact SubG.trans_grid (ih _ _) ha
      · have hb := SubG.trans_grid
          (gridSkimValuesGo_subG [1, 2, 3, 4, 5, 6, 7, 8, 9] 0
            (grid_skimRegions g st).g (grid_skimRegions g st).st []) ha
        split
        · exact hb
        · split
          · exact SubG.trans_grid (ih _ _) hb
          · have hc := SubG.trans_grid
              (gridSkimIntersectionsGo_subG (List.range 54) 0
                (grid_skimValues (grid_skimRegions g st).g
                  (grid_skimRegions g st).st).g
                (grid_skimValues (grid_skimRegions g st).g
                  (grid_skimRegions g st).st).st []) hb
            split
            · exact hc
            · split
              · exact SubG.trans_grid (ih _ _) hc
              · exact hc

/-- The masks handed to the hypothesis loop are powers of two. -/
theorem hypBitsGo_mem_pow :
    ∀ (w bits q v : Nat), v ∈ hypBitsGo w bits (2 ^ q) →
      ∃ p, p < q + w ∧ v = 2 ^ p := by
  intro w
  induction w with
  | zero =>
    intro bits q v h
    cases bits <;> exact absurd h (List.not_mem_nil v)
  | succ w ih =>
    intro bits q v h
    cases bits with
    | zero => exact absurd h (List.not_mem_nil v)
    | succ b =>
      rw [show hypBitsGo (w + 1) (b + 1) (2 ^ q) =
        (if (b + 1) % 2 = 1 then [2 ^ q] else []) ++
          hypBitsGo w ((b + 1) / 2) (2 ^ q * 2) from rfl] at h
      rw [List.mem_append] at h
      rcases h with h | h
      · split at h
        · rw [List.mem_singleton] at h
          exact ⟨q, by omega, h⟩
        · exact absurd h (List.not_mem_nil v)
      · rw [show (2:Nat) ^ q * 2 = 2 ^ (q + 1) from (Nat.pow_succ 2 q).symm] at h
        obtain ⟨p, hp, he⟩ := ih ((b + 1) / 2) (q + 1) v h
        exact ⟨p, by omega, he⟩

theorem NB_BITS_two_pow {p : Nat} (hp : p < 16) : NB_BITS (2 ^ p) = 1 := by
  interval_cases p <;> rfl

theorem countHyp_append (a b : List Ev) :
    countHyp (a ++ b) = countHyp a + countHyp b := by
  unfold countHyp
  rw [List.filter_append, List.length_append]

theorem countHyp_zero_no_mem {tr : List Ev} (h : countHyp tr = 0)
    (ci v : Nat) : Ev.hypothesis ci v ∈ tr → False := by
  intro hm
  unfold countHyp at h
  rw [List.length_eq_zero] at h
  have hmem : Ev.hypothesis ci v ∈ tr.filter
      (fun e => match e with | .hypothesis _ _ => true | _ => false) :=
    List.mem_filter.2 ⟨hm, rfl⟩
  rw [h] at hmem
  exact absurd hmem (List.not_mem_nil _)

theorem gridSkimRegionsGo_countHyp :
    ∀ (irs : List Nat) (sk : Int) (g : GState) (st : Counters) (tr : List Ev),
      countHyp (gridSkimRegionsGo irs sk g st tr).tr = countHyp tr := by
  intro irs
  induction irs with
  | nil => intro sk g st tr; rfl
  | cons ir irs ih =>
    intro sk g st tr
    unfold gridSkimRegionsGo
    split
    · exact ih sk g st tr
    · dsimp only
      split
      · rw [ih, countHyp_append]; rfl
      · split
        · rfl
        · exact ih _ _ _ _

theorem gridSkimValuesGo_countHyp :
    ∀ (vs : List Nat) (sk : Int) (g : GState) (st : Counters) (tr : List Ev),
      countHyp (gridSkimValuesGo vs sk g st tr).tr = countHyp tr := by
  intro vs
  induction vs with
  | nil => intro sk g st tr; rfl
  | cons v vs ih =>
    intro sk g st tr
    unfold gridSkimValuesGo
    dsimp only
    split
    · rw [ih, countHyp_append]; rfl
    · split
      · rfl
      · exact ih _ _ _ _

theorem gridSkimIntersectionsGo_countHyp :
    ∀ (iis : List Nat) (sk : Int) (g : GState) (st : Counters) (tr : List Ev),
      countHyp (gridSkimIntersectionsGo iis sk g st tr).tr = countHyp tr := by
  intro iis
  induction iis with
  | nil => intro sk g st tr; rfl
  | cons ii iis ih =>
    intro sk g st tr
    unfold gridSkimIntersectionsGo
    split
    · exact ih sk g st tr
    · dsimp only
      split
      · rw [ih, countHyp_append]; rfl
      · exact ih _ _ _ _

/-- The fixed-point loop emits no hypothesis announcements. -/
theorem skimLoop_countHyp :
    ∀ (fuel : Nat) (g : GState) (st : Counters),
      countHyp (skimLoop fuel g st).2.2.2 = 0 := by
  intro fuel
  induction fuel with
  | zero => intro g st; rfl
  | succ fuel ih =>
    intro g st
    unfold skimLoop
    dsimp only
    have ha : countHyp (grid_skimRegions g st).tr = 0 :=
      gridSkimRegionsGo_countHyp (List.range 27) 0 g st []
    split
    · exact ha
    · split
      · rw [countHyp_append, ha, ih]
      · have hb : countHyp (grid_skimValues (grid_skimRegions g st).g
            (grid_skimRegions g st).st).tr = 0 :=
          gridSkimValuesGo_countHyp [1, 2, 3, 4, 5, 6, 7, 8, 9] 0 _ _ []
        split
        · rw [countHyp_append, ha, hb]
        · split
          · rw [countHyp_append, countHyp_append, ha, hb, ih]
          · have hc : countHyp (grid_skimIntersections
                (grid_skimValues (grid_skimRegions g st).g
                  (grid_skimRegions g st).st).g
                (grid_skimValues (grid_skimRegions g st).g
                  (grid_skimRegions g st).st).st).tr = 0 :=
              gridSkimIntersectionsGo_countHyp (List.range 54) 0 _ _ []
            split
            · rw [countHyp_append, countHyp_append, ha, hb, hc]
            · split
              · rw [countHyp_append, countHyp_append, countHyp_append,
                  ha, hb, hc, ih]
              · rw [countHyp_append, countHyp_append, ha, hb, hc]

/-- Hypothesis announcements recorded by the hypothesis loop carry
singleton masks, provided the candidate list and the recursive solver do. -/
theorem hypLoop_hyp_singleton
    (solve : GState → Find → Counters → Option ElimOut)
    (hs : ∀ g f st out, solve g f st = some out →
      ∀ ci v, Ev.hypothesis ci v ∈ out.tr → NB_BITS v = 1)
    (g0 : GState) (find : Find) (ip : Nat) :
    ∀ (vs : List Nat), (∀ v ∈ vs, NB_BITS v = 1) →
      ∀ (rc : Int) (st : Counters) (tr : List Ev),
        (∀ ci v, Ev.hypothesis ci v ∈ tr → NB_BITS v = 1) →
        ∀ res, hypLoop solve g0 find ip vs rc st tr = some res →
          ∀ ci v, Ev.hypothesis ci v ∈ res.2.2 → NB_BITS v = 1 := by
  intro vs
  induction vs with
  | nil =>
    intro _ rc st tr htr res h
    cases h
    exact htr
  | cons v vs ih =>
    intro hvs rc st tr htr res h
    unfold hypLoop at h
    dsimp only at h
    split at h
    · exact Option.noConfusion h
    · rename_i out hout
      have htr1 : ∀ ci w, Ev.hypothesis ci w ∈
          tr ++ Ev.hypothesis ip v :: out.tr → NB_BITS w = 1 := by
        intro ci w hm
        rw [List.mem_append, List.mem_cons] at hm
        rcases hm with hm | hm | hm
        · exact htr ci w hm
        · cases hm
          exact hvs v (List.mem_cons_self _ _)
        · exact hs _ _ _ _ hout ci w hm
      have hvs' : ∀ w ∈ vs, NB_BITS w = 1 :=
        fun w hw => hvs w (List.mem_cons_of_mem _ hw)
      split at h
      · split at h
        · cases h
          exact htr1
        · exact ih hvs' _ _ _ htr1 res h
      · split at h
        · exact Option.noConfusion h
        · exact ih hvs' _ _ _ htr1 res h

/-- **C4.** On every call path of the elimination solver, cell masks only
ever lose bits: each of the three rule engines produces a pointwise
sub-grid of its input, and so does the whole driver on its in-place grid;
the only mask ever *assigned* is the hypothesis step's, which writes a
singleton (a power of two taken from the pivot's candidates) into the pivot
cell of a freshly copied grid — every recorded hypothesis announcement
carries a singleton mask. -/
theorem elimination_masks_monotone :
    (∀ (ir : Nat) (g : GState) (st : Counters), SubG (region_skim ir g st).g g) ∧
    (∀ (g : GState) (v : Nat) (st : Counters), SubG (value_skim g v st).g g) ∧
    (∀ (ii : Nat) (g : GState) (st : Counters), SubG (intersection_skim ii g st).g g) ∧
    (∀ (fuel : Nat) (g : GState) (find : Find) (st : Counters) (out : ElimOut),
      grid_solveByElimination fuel g find st = some out →
        SubG out.g g ∧
        ∀ ci v, Ev.hypothesis ci v ∈ out.tr → NB_BITS v = 1) := by
  refine ⟨region_skim_subG, value_skim_subG, intersection_skim_subG, ?_⟩
  intro fuel
  induction fuel with
  | zero =>
    intro g find st out h
    cases h
    exact ⟨SubG.refl_grid g, fun ci v hm => absurd hm (List.not_mem_nil _)⟩
  | succ fuel ih =>
    intro g find st out h
    unfold grid_solveByElimination at h
    dsimp only at h
    have hsub := skimLoop_subG (fuel + 1) g st
    have htr0 : ∀ ci v, Ev.hypothesis ci v ∈ (skimLoop (fuel + 1) g st).2.2.2 →
        NB_BITS v = 1 :=
      fun ci v hm =>
        absurd hm (countHyp_zero_no_mem (skimLoop_countHyp (fuel + 1) g st) ci v)
    split at h
    · cases h
      exact ⟨hsub, htr0⟩
    · split at h
      · rename_i ip hip
        split at h
        · exact Option.noConfusion h
        · rename_i rc stf trf hloop
          cases h
          refine ⟨hsub, ?_⟩
          have hvs : ∀ v ∈ hypBits
              (gcell (skimLoop (fuel + 1) g st).2.1 ip) 1, NB_BITS v = 1 := by
            intro v hv
            obtain ⟨p, hp, he⟩ := hypBitsGo_mem_pow 16 _ 0 v
              (by rw [Nat.pow_zero]; exact hv)
            rw [he]
            exact NB_BITS_two_pow (by omega)
          have htr1 : ∀ ci v, Ev.hypothesis ci v ∈
              (skimLoop (fuel + 1) g st).2.2.2 ++
                [Ev.change (get_event_args (skimLoop (fuel + 1) g st).2.1)] →
              NB_BITS v = 1 := by
            intro ci v hm
            rw [List.mem_append] at hm
            rcases hm with hm | hm
            · exact htr0 ci v hm
            · rw [List.mem_singleton] at hm
              exact Ev.noConfusion hm
          exact hypLoop_hyp_singleton _ (fun g1 f1 st1 o1 h1 => (ih g1 f1 st1 o1 h1).2)
            _ find ip _ hvs _ _ _ htr1 _ hloop
      · cases h
        refine ⟨hsub, ?_⟩
        intro ci v hm
        rw [List.mem_append] at hm
        rcases hm with hm | hm
        · exact absurd hm (countHyp_zero_no_mem (skimLoop_countHyp (fuel + 1) g st) ci v)
        · rw [List.mem_singleton] at hm
          exact Ev.noConfusion hm

/-- Witness for C4: the driver run on the inconsistent example returns a
sub-grid of its input. -/
theorem elimination_masks_monotone_witness :
    SubG ((grid_solveByElimination 2 (grid_init_from_int9x9 cexInconsistent)
        Find.FIRST stats0).getD
      ⟨0, grid_init_from_int9x9 cexInconsistent, stats0, []⟩).g
      (grid_init_from_int9x9 cexInconsistent) :=
  (elimination_masks_monotone.2.2.2 2 (grid_init_from_int9x9 cexInconsistent)
    Find.FIRST stats0 _ (by decide)).1

/-! ## C6: elimination promotes to `BACKTRACKING` exactly when a
hypothesis was made -/

theorem PreservesTL.rfl' (st : Counters) : PreservesTL st st := ⟨rfl, rfl⟩

theorem PreservesTL.trans_tl {a b c : Counters} (h1 : PreservesTL a b)
    (h2 : PreservesTL b c) : PreservesTL a c :=
  ⟨h1.1.trans h2.1, h1.2.trans h2.2⟩

theorem bumpC_preservesTL (st : Counters) (lvl : Nat) :
    PreservesTL (bumpC st lvl) st := ⟨rfl, rfl⟩

theorem bumpV_preservesTL (st : Counters) (lvl : Nat) :
    PreservesTL (bumpV st lvl) st := ⟨rfl, rfl⟩

theorem bumpR_preservesTL (st : Counters) (lvl : Nat) :
    PreservesTL (bumpR st lvl) st := ⟨rfl, rfl⟩

theorem regionScan_preservesTL (ir : Nat) :
    ∀ (l : List Nat) (s : Nat) (g : GState) (st : Counters),
      PreservesTL (scanStats (regionScan ir l s g st)) st := by
  intro l
  induction l with
  | nil => intro s g st; exact PreservesTL.rfl' st
  | cons bits rest ih =>
    intro s g st
    unfold regionScan
    dsimp only
    split
    · exact PreservesTL.rfl' st
    · split
      · exact PreservesTL.rfl' st
      · rename_i g1 lvl1 heq1
        have h1 : PreservesTL (if lvl1 ≠ 0 then bumpC st lvl1 else st) st := by
          split
          · exact bumpC_preservesTL st lvl1
          · exact PreservesTL.rfl' st
        split
        · exact h1
        · split
          · exact h1
          · split
            · exact h1
            · rename_i g2 lvl2 heq2
              have h2 : PreservesTL (if lvl2 ≠ 0 then
                  bumpV (if lvl1 ≠ 0 then bumpC st lvl1 else st) lvl2
                  else (if lvl1 ≠ 0 then bumpC st lvl1 else st))
                  (if lvl1 ≠ 0 then bumpC st lvl1 else st) := by
                split
                · exact bumpV_preservesTL _ lvl2
                · exact PreservesTL.rfl' _
              split
              · exact PreservesTL.trans_tl h2 h1
              · exact PreservesTL.trans_tl (ih _ g2 _) (PreservesTL.trans_tl h2 h1)

theorem valueScan_preservesTL (value : Nat) :
    ∀ (l : List Nat) (s : Nat) (g : GState) (st : Counters),
      PreservesTL (scanStats (valueScan value l s g st)) st := by
  intro l
  induction l with
  | nil => intro s g st; exact PreservesTL.rfl' st
  | cons bits rest ih =>
    intro s g st
    unfold valueScan
    dsimp only
    split
    · exact PreservesTL.rfl' st
    · split
      · exact PreservesTL.rfl' st
      · rename_i g1 lvl1 heq1
        have h1 : PreservesTL (if lvl1 ≠ 0 then bumpR st lvl1 else st) st := by
          split
          · exact bumpR_preservesTL st lvl1
          · exact PreservesTL.rfl' st
        split
        · exact h1
        · split
          · exact h1
          · split
            · exact h1
            · rename_i g2 lvl2 heq2
              have h2 : PreservesTL (if lvl2 ≠ 0 then
                  bumpR (if lvl1 ≠ 0 then bumpR st lvl1 else st) lvl2
                  else (if lvl1 ≠ 0 then bumpR st lvl1 else st))
                  (if lvl1 ≠ 0 then bumpR st lvl1 else st) := by
                split
                · exact bumpR_preservesTL _ lvl2
                · exact PreservesTL.rfl' _
              split
              · exact PreservesTL.trans_tl h2 h1
              · exact PreservesTL.trans_tl (ih _ g2 _) (PreservesTL.trans_tl h2 h1)

theorem regionSkimGo_preservesTL (ir : Nat) :
    ∀ (ds : List Nat) (s : Nat) (g : GState) (st : Counters),
      PreservesTL (regionSkimGo ir ds s g st).st st := by
  intro ds
  induction ds with
  | nil => intro s g st; exact PreservesTL.rfl' st
  | cons d ds ih =>
    intro s g st
    unfold regionSkimGo
    split
    · exact PreservesTL.rfl' st
    · have hs := regionScan_preservesTL ir (subsetsOfSize d) s g st
      cases hsc : regionScan ir (subsetsOfSize d) s g st with
      | ret k g1 st1 =>
        rw [hsc] at hs
        exact hs
      | cont s1 g1 st1 =>
        rw [hsc] at hs
        exact PreservesTL.trans_tl (ih s1 g1 st1) hs

theorem valueSkimGo_preservesTL (value : Nat) :
    ∀ (ds : List Nat) (s : Nat) (g : GState) (st : Counters),
      PreservesTL (valueSkimGo value ds s g st).st st := by
  intro ds
  induction ds with
  | nil => intro s g st; exact PreservesTL.rfl' st
  | cons d ds ih =>
    intro s g st
    unfold valueSkimGo
    split
    · exact PreservesTL.rfl' st
    · have hs := valueScan_preservesTL value (subsetsOfSize d) s g st
      cases hsc : valueScan value (subsetsOfSize d) s g st with
      | ret k g1 st1 =>
        rw [hsc] at hs
        exact hs
      | cont s1 g1 st1 =>
        rw [hsc] at hs
        exact PreservesTL.trans_tl (ih s1 g1 st1) hs

theorem intersection_skim_preservesTL (ii : Nat) (g : GState) (st : Counters) :
    PreservesTL (intersection_skim ii g st).st st := by
  unfold intersection_skim
  dsimp only
  split
  · exact ⟨rfl, rfl⟩
  · exact PreservesTL.rfl' st

theorem gridSkimRegionsGo_preservesTL :
    ∀ (irs : List Nat) (sk : Int) (g : GState) (st : Counters) (tr : List Ev),
      PreservesTL (gridSkimRegionsGo irs sk g st tr).st st := by
  intro irs
  induction irs with
  | nil => intro sk g st tr; exact PreservesTL.rfl' st
  | cons ir irs ih =>
    intro sk g st tr
    unfold gridSkimRegionsGo
    split
    · exact ih sk g st tr
    · dsimp only
      have hrs := regionSkimGo_preservesTL ir [1, 2, 3, 4, 5, 6, 7, 8, 9] 0
        { g with regCh := g.regCh.set ir false } st
      split
      · exact PreservesTL.trans_tl (ih _ _ _ _) hrs
      · split
        · exact hrs
        · exact PreservesTL.trans_tl (ih _ _ _ _) hrs

theorem gridSkimValuesGo_preservesTL :
    ∀ (vs : List Nat) (sk : Int) (g : GState) (st : Counters) (tr : List Ev),
      PreservesTL (gridSkimValuesGo vs sk g st tr).st st := by
  intro vs
  induction vs with
  | nil => intro sk g st tr; exact PreservesTL.rfl' st
  | cons v vs ih =>
    intro sk g st tr
    unfold gridSkimValuesGo
    dsimp only
    have hvs := valueSkimGo_preservesTL v [1, 2, 3, 4, 5, 6, 7, 8, 9] 0 g st
    split
    · exact PreservesTL.trans_tl (ih _ _ _ _) hvs
    · split
      · exact hvs
      · exact PreservesTL.trans_tl (ih _ _ _ _) hvs

theorem gridSkimIntersectionsGo_preservesTL :
    ∀ (iis : List Nat) (sk : Int) (g : GState) (st : Counters) (tr : List Ev),
      PreservesTL (gridSkimIntersectionsGo iis sk g st tr).st st := by
  intro iis
  induction iis with
  | nil => intro sk g st tr; exact PreservesTL.rfl' st
  | cons ii iis ih =>
    intro sk g st tr
    unfold gridSkimIntersectionsGo
    split
    · exact ih sk g st tr
    · dsimp only
      have his := intersection_skim_preservesTL ii
        { g with intCh := g.intCh.set ii false } st
      split
      · exact PreservesTL.trans_tl (ih _ _ _ _) his
      · exact PreservesTL.trans_tl (ih _ _ _ _) his

theorem skimLoop_preservesTL :
    ∀ (fuel : Nat) (g : GState) (st : Counters),
      PreservesTL (skimLoop fuel g st).2.2.1 st := by
  intro fuel
  induction fuel with
  | zero => intro g st; exact PreservesTL.rfl' st
  | succ fuel ih =>
    intro g st
    unfold skimLoop
    dsimp only
    have ha := gridSkimRegionsGo_preservesTL (List.range 27) 0 g st []
    split
    · exact ha
    · split
      · exact PreservesTL.trans_tl (ih _ _) ha
      · have hb := PreservesTL.trans_tl
          (gridSkimValuesGo_preservesTL [1, 2, 3, 4, 5, 6, 7, 8, 9] 0
            (grid_skimRegions g st).g (grid_skimRegions g st).st []) ha
        split
        · exact hb
        · split
          · exact PreservesTL.trans_tl (ih _ _) hb
          · have hc := PreservesTL.trans_tl
              (gridSkimIntersectionsGo_preservesTL (List.range 54) 0
                (grid_skimValues (grid_skimRegions g st).g
                  (grid_skimRegions g st).st).g
                (grid_skimValues (grid_skimRegions g st).g
                  (grid_skimRegions g st).st).st []) hb
            split
            · exact hc
            · split
              · exact PreservesTL.trans_tl (ih _ _) hc
              · exact hc

/-- Totality and `backtrackingLevel` tracking of the hypothesis loop: with
a solver that only aborts on recursive `0` returns at level 0, the loop
always returns; its result is `-1` (restoring the entry level `L0`) or a
positive level it records.  In particular the recursive calls — made at
level `≥ 1` — never return `0`, so the `exit(-1)` guard is dead. -/
theorem hypLoop_total
    (solve : GState → Find → Counters → Option ElimOut)
    (L0 : Int) (hL0 : 0 ≤ L0)
    (hs : ∀ g f stc, 0 ≤ stc.backtrackingLevel →
      ∃ out, solve g f stc = some out ∧
        (out.ret < 0 ∨ 0 < out.ret ∨
          (out.ret = 0 ∧ stc.backtrackingLevel = 0)) ∧
        (out.ret < 0 → out.st.backtrackingLevel = stc.backtrackingLevel) ∧
        (0 < out.ret → out.st.backtrackingLevel = out.ret))
    (g0 : GState) (find : Find) (ip : Nat) :
    ∀ (vs : List Nat) (rc : Int) (st : Counters) (tr : List Ev),
      (rc < 0 ∨ 0 < rc) →
      (rc < 0 → st.backtrackingLevel = L0) →
      (0 < rc → st.backtrackingLevel = rc) →
      ∃ res, hypLoop solve g0 find ip vs rc st tr = some res ∧
        (res.1 < 0 ∨ 0 < res.1) ∧
        (res.1 < 0 → res.2.1.backtrackingLevel = L0) ∧
        (0 < res.1 → res.2.1.backtrackingLevel = res.1) := by
  intro vs
  induction vs with
  | nil =>
    intro rc st tr hrc hneg hpos
    exact ⟨(rc, st, tr), rfl, hrc, hneg, hpos⟩
  | cons v vs ih =>
    intro rc st tr hrc hneg hpos
    have hstlevel : 0 ≤ st.backtrackingLevel := by
      rcases hrc with h | h
      · rw [hneg h]; exact hL0
      · rw [hpos h]; omega
    obtain ⟨out, hout, hcases, hlneg, hlpos⟩ := hs
      ((grid_cell_changed (setCell g0 ip v) ip).1) find
      { st with backtrackingTries := st.backtrackingTries + 1,
                backtrackingLevel := st.backtrackingLevel + 1 }
      (by dsimp only; omega)
    have hretnz : out.ret ≠ 0 := by
      rcases hcases with h | h | ⟨_, h⟩
      · omega
      · omega
      · dsimp only at h; omega
    unfold hypLoop
    dsimp only
    rw [hout]
    dsimp only
    have hst2level :
        (if out.st.backtrackingSteps <
            (grid_countEmptyCells g0 : Int) - (grid_countEmptyCells out.g : Int)
          then { out.st with backtrackingSteps :=
            (grid_countEmptyCells g0 : Int) - (grid_countEmptyCells out.g : Int) }
          else out.st).backtrackingLevel = out.st.backtrackingLevel := by
      split <;> rfl
    by_cases hgt : 0 < out.ret
    · rw [if_pos hgt]
      by_cases hf : find = Find.FIRST
      · rw [if_pos hf]
        refine ⟨_, rfl, Or.inr hgt, fun hc => absurd hc (by omega), fun _ => rfl⟩
      · rw [if_neg hf]
        exact ih out.ret _ _ (Or.inr hgt) (fun hc => absurd hc (by omega))
          (fun _ => rfl)
    · rw [if_neg hgt]
      have hlt : out.ret < 0 := by
        rcases hcases with h | h | ⟨h, _⟩
        · exact h
        · exact absurd h hgt
        · exact absurd h hretnz
      rw [if_neg hretnz]
      have hlev : (if out.st.backtrackingSteps <
            (grid_countEmptyCells g0 : Int) - (grid_countEmptyCells out.g : Int)
          then { out.st with backtrackingSteps :=
            (grid_countEmptyCells g0 : Int) - (grid_countEmptyCells out.g : Int) }
          else out.st).backtrackingLevel - 1 = st.backtrackingLevel := by
        rw [hst2level, hlneg hlt]
        dsimp only
        omega
      refine ih rc _ _ hrc ?_ ?_
      · intro hc
        dsimp only
        rw [hlev]
        exact hneg hc
      · intro hc
        dsimp only
        rw [hlev]
        exact hpos hc

/-- Totality of the elimination driver: started at a non-negative
backtracking level, it never reaches the `exit(-1)` branch, and its return
code is `-1`, positive, or `0` only at level 0 (the root). -/
theorem grid_solveByElimination_total :
    ∀ (fuel : Nat) (g : GState) (find : Find) (st : Counters),
      0 ≤ st.backtrackingLevel →
      ∃ out, grid_solveByElimination fuel g find st = some out ∧
        (out.ret < 0 ∨ 0 < out.ret ∨
          (out.ret = 0 ∧ st.backtrackingLevel = 0)) ∧
        (out.ret < 0 → out.st.backtrackingLevel = st.backtrackingLevel) ∧
        (0 < out.ret → out.st.backtrackingLevel = out.ret) := by
  intro fuel
  induction fuel with
  | zero =>
    intro g find st h
    exact ⟨⟨-1, g, st, []⟩, rfl, Or.inl (by norm_num), fun _ => rfl,
      fun hc => absurd hc (by norm_num)⟩
  | succ fuel ih =>
    intro g find st h
    unfold grid_solveByElimination
    dsimp only
    have hTL := skimLoop_preservesTL (fuel + 1) g st
    by_cases hret : (skimLoop (fuel + 1) g st).1 < 0
    · rw [if_pos hret]
      exact ⟨_, rfl, Or.inl (by norm_num), fun _ => hTL.2,
        fun hc => absurd hc (by norm_num)⟩
    · rw [if_neg hret]
      cases hp : findPivot (skimLoop (fuel + 1) g st).2.1 with
      | some ip =>
        dsimp only
        obtain ⟨res, hres, hrc, hneg, hpos⟩ := hypLoop_total
          (grid_solveByElimination fuel) st.backtrackingLevel h
          (fun g1 f1 st1 h1 => ih g1 f1 st1 h1)
          (skimLoop (fuel + 1) g st).2.1 find ip
          (hypBits (gcell (skimLoop (fuel + 1) g st).2.1 ip) 1) (-1)
          (skimLoop (fuel + 1) g st).2.2.1
          ((skimLoop (fuel + 1) g st).2.2.2 ++
            [Ev.change (get_event_args (skimLoop (fuel + 1) g st).2.1)])
          (Or.inl (by norm_num)) (fun _ => hTL.2)
          (fun hc => absurd hc (by norm_num))
        obtain ⟨rc, stf, trf⟩ := res
        rw [hres]
        dsimp only at hrc hneg hpos ⊢
        refine ⟨⟨rc, (skimLoop (fuel + 1) g st).2.1, stf, trf⟩, rfl, ?_, ?_, ?_⟩
        · rcases hrc with hh | hh
          · exact Or.inl hh
          · exact Or.inr (Or.inl hh)
        · exact hneg
        · exact hpos
      | none =>
        dsimp only
        refine ⟨_, rfl, ?_, ?_, ?_⟩ <;> dsimp only
        · rw [hTL.2]
          rcases lt_or_eq_of_le h with hh | hh
          · exact Or.inr (Or.inl hh)
          · exact Or.inr (Or.inr ⟨hh.symm, hh.symm⟩)
        · intro hc
          rw [hTL.2] at hc
          omega
        · intro _
          rfl

theorem countHyp_hyp_cons (ci v : Nat) (tr : List Ev) :
    countHyp (Ev.hypothesis ci v :: tr) = countHyp tr + 1 := by
  simp [countHyp, List.filter_cons]

theorem countHyp_init_cons (a : EvtArgs) (tr : List Ev) :
    countHyp (Ev.init a :: tr) = countHyp tr := rfl

theorem countHyp_change_single (a : EvtArgs) : countHyp [Ev.change a] = 0 := rfl

theorem countHyp_solved_single (a : EvtArgs) : countHyp [Ev.solved a] = 0 := rfl

/-- Tries accounting of the hypothesis loop: every unit added to
`backtrackingTries` is matched by exactly one `ON_BACKTRACKING_HYPOTHESIS`
announcement appended to the trace, provided the recursive solver keeps the
same account. -/
theorem hypLoop_tries
    (solve : GState → Find → Counters → Option ElimOut)
    (hs : ∀ g f stc out, solve g f stc = some out →
      out.st.backtrackingTries =
        stc.backtrackingTries + (countHyp out.tr : Int))
    (g0 : GState) (find : Find) (ip : Nat) :
    ∀ (vs : List Nat) (rc : Int) (st : Counters) (tr : List Ev)
      (res : Int × Counters × List Ev),
      hypLoop solve g0 find ip vs rc st tr = some res →
      res.2.1.backtrackingTries + (countHyp tr : Int) =
        st.backtrackingTries + (countHyp res.2.2 : Int) := by
  intro vs
  induction vs with
  | nil =>
    intro rc st tr res h
    unfold hypLoop at h
    cases h
    rfl
  | cons v vs ih =>
    intro rc st tr res h
    unfold hypLoop at h
    dsimp only at h
    cases hout : solve ((grid_cell_changed (setCell g0 ip v) ip).1) find
        { st with backtrackingTries := st.backtrackingTries + 1,
                  backtrackingLevel := st.backtrackingLevel + 1 } with
    | none =>
      rw [hout] at h
      exact absurd h (by simp)
    | some out =>
      rw [hout] at h
      dsimp only at h
      have htries := hs _ _ _ _ hout
      dsimp only at htries
      split at h
      · split at h
        · cases h
          dsimp only
          rw [countHyp_append, countHyp_hyp_cons]
          split <;> (try dsimp only) <;> omega
        · have hrec := ih _ _ _ _ h
          rw [countHyp_append, countHyp_hyp_cons] at hrec
          dsimp only at hrec
          split at hrec <;> (try dsimp only at hrec) <;> omega
      · split at h
        · exact absurd h (by simp)
        · have hrec := ih _ _ _ _ h
          rw [countHyp_append, countHyp_hyp_cons] at hrec
          dsimp only at hrec
          split at hrec <;> (try dsimp only at hrec) <;> omega

/-- Tries accounting of the elimination driver: the final
`backtrackingTries` exceeds the initial one by exactly the number of
hypothesis announcements in the produced trace. -/
theorem grid_solveByElimination_tries :
    ∀ (fuel : Nat) (g : GState) (find : Find) (st : Counters)
      (out : ElimOut),
      grid_solveByElimination fuel g find st = some out →
      out.st.backtrackingTries =
        st.backtrackingTries + (countHyp out.tr : Int) := by
  intro fuel
  induction fuel with
  | zero =>
    intro g find st out h
    unfold grid_solveByElimination at h
    cases h
    simp [countHyp]
  | succ fuel ih =>
    intro g find st out h
    unfold grid_solveByElimination at h
    dsimp only at h
    have hTL := skimLoop_preservesTL (fuel + 1) g st
    have hsk := skimLoop_countHyp (fuel + 1) g st
    split at h
    · cases h
      dsimp only
      rw [hsk, hTL.1]
      simp
    · split at h
      · rename_i ip hp
        split at h
        · exact absurd h (by simp)
        · rename_i rc stf trf hhl
          cases h
          have hrec := hypLoop_tries (grid_solveByElimination fuel)
            (fun g1 f1 st1 o1 h1 => ih g1 f1 st1 o1 h1) _ find ip _ _ _ _ _ hhl
          rw [countHyp_append, countHyp_change_single] at hrec
          rw [hsk, hTL.1] at hrec
          dsimp only at hrec ⊢
          omega
      · cases h
        dsimp only
        rw [countHyp_append, countHyp_solved_single, hsk, hTL.1]
        simp

/-- **C6.** With `method = ELIMINATION` and an in-range grid,
`sudoku_solve` returns `BACKTRACKING` exactly when the elimination solver
made at least one hypothesis (a speculative assignment, announced as an
`ON_BACKTRACKING_HYPOTHESIS` event in the trace), and returns
`ELIMINATION` exactly when it completed without any hypothesis. -/
theorem elimination_promotion
    (fuel : Nat) (sto : Store) (gi : Nat) (find : Find)
    (h : int9x9_out_of_range (sto.getD gi []) = false) :
    ∃ out, sudoku_solve fuel sto gi Method.ELIMINATION find = some out ∧
      (out.m = Method.BACKTRACKING ↔ 0 < countHyp out.tr) ∧
      (out.m = Method.ELIMINATION ↔ countHyp out.tr = 0) := by
  obtain ⟨o, ho, -, -, -⟩ := grid_solveByElimination_total fuel
    (grid_init_from_int9x9 (sto.getD gi [])) find stats0 (le_refl 0)
  have htr := grid_solveByElimination_tries fuel _ find stats0 o ho
  have h0 : stats0.backtrackingTries = 0 := rfl
  rw [h0] at htr
  refine ⟨⟨if 0 < o.st.backtrackingTries then Method.BACKTRACKING
           else Method.ELIMINATION, sto,
           Ev.init (get_event_args
             (grid_init_from_int9x9 (sto.getD gi []))) :: o.tr⟩,
    ?_, ?_, ?_⟩
  · unfold sudoku_solve
    dsimp only
    rw [h, if_neg Bool.false_ne_true, ho]
  · dsimp only
    rw [countHyp_init_cons]
    split
    · rename_i hpos
      rw [htr] at hpos
      constructor
      · intro _
        omega
      · intro _
        rfl
    · rename_i hneg
      rw [htr] at hneg
      constructor
      · intro hm
        exact absurd hm (by decide)
      · intro hc
        exfalso
        omega
  · dsimp only
    rw [countHyp_init_cons]
    split
    · rename_i hpos
      rw [htr] at hpos
      constructor
      · intro hm
        exact absurd hm (by decide)
      · intro hc
        exfalso
        omega
    · rename_i hneg
      rw [htr] at hneg
      constructor
      · intro _
        omega
      · intro _
        rfl

theorem elimination_promotion_witness :
    ∃ out, sudoku_solve 20 [cexSolved] 0 Method.ELIMINATION Find.FIRST
        = some out ∧
      (out.m = Method.BACKTRACKING ↔ 0 < countHyp out.tr) ∧
      (out.m = Method.ELIMINATION ↔ countHyp out.tr = 0) :=
  elimination_promotion 20 [cexSolved] 0 Find.FIRST (by decide)

end SudokuSolver
